import Mathlib

/-!
Verification of the investment-research workflow application
(`app.py`, `tools.py`): a shallow embedding of its pure helpers
(`parse_tasks`, `extract_text_from_response`, `safe_api_call`), of the
three stage handlers and the reset action over the session state, and of
the artifact tools, together with theorems settling the specified
properties.
-/

namespace InvApp

/-! ## A model of the dynamically typed values the helpers receive

`extract_text_from_response` duck-types over its argument with `hasattr`
and truthiness tests, so we model the relevant fragment of the dynamic
value universe: `None`, strings, lists, and attribute-bearing objects
(such as `types.SimpleNamespace` or SDK response objects). -/

inductive PyVal where
  | noneVal : PyVal
  | str : String → PyVal
  | list : List PyVal → PyVal
  | obj : List (String × PyVal) → PyVal

/-- Python truthiness: `None`, `""` and `[]` are falsy; plain objects are
truthy. -/
def truthy : PyVal → Bool
  | .noneVal => false
  | .str s => !s.isEmpty
  | .list xs => !xs.isEmpty
  | .obj _ => true

/-- Attribute lookup; `hasattr(v, name)` holds iff this is `some`.  Only
objects carry the attribute names the helpers probe for. -/
def getAttr : PyVal → String → Option PyVal
  | .obj attrs, name => attrs.lookup name
  | _, _ => Option.none

/-- Python whitespace class `\s` (ASCII fragment). -/
def isPySpace (c : Char) : Bool :=
  c = ' ' || c = '\t' || c = '\n' || c = '\r' || c = '\x0b' || c = '\x0c'

/-- `str.strip()`: drop whitespace from both ends. -/
def pyStrip (cs : List Char) : List Char :=
  ((cs.dropWhile isPySpace).reverse.dropWhile isPySpace).reverse

mutual

/-- `repr` of a value, as used by `str()` on containers; objects render the
way `types.SimpleNamespace` does. -/
def pyRepr : PyVal → String
  | .noneVal => "None"
  | .str s => "\u0027" ++ s ++ "\u0027"
  | .list xs => "[" ++ pyReprList xs ++ "]"
  | .obj attrs => "namespace(" ++ pyReprAttrs attrs ++ ")"

def pyReprList : List PyVal → String
  | [] => ""
  | [x] => pyRepr x
  | x :: y :: xs => pyRepr x ++ ", " ++ pyReprList (y :: xs)

def pyReprAttrs : List (String × PyVal) → String
  | [] => ""
  | [(k, v)] => k ++ "=" ++ pyRepr v
  | (k, v) :: y :: xs => k ++ "=" ++ pyRepr v ++ ", " ++ pyReprAttrs (y :: xs)

end

/-- `str(v)`: a string renders as itself, everything else as its repr. -/
def pyToString : PyVal → String
  | .str s => s
  | v => pyRepr v

/-- `str(response).strip()`, the fallback of the extraction helper. -/
def strFallback (v : PyVal) : String :=
  String.mk (pyStrip (pyToString v).data)

/-- `v.strip()` on a dynamic value: only strings have `strip`. -/
def pyStripMethod : PyVal → Except String String
  | .str s => .ok (String.mk (pyStrip s.data))
  | _ => .error "AttributeError: object has no attribute strip"

/-- `for x in v`: lists yield their elements, strings their characters;
other values are not iterable. -/
def pyIter : PyVal → Except String (List PyVal)
  | .list xs => .ok xs
  | .str s => .ok (s.data.map fun c => .str (String.mk [c]))
  | _ => .error "TypeError: object is not iterable"

/-- `"\n".join(parts)`: every element must be a string. -/
def pyJoinStrings : List PyVal → Except String String
  | [] => .ok ""
  | [.str s] => .ok s
  | .str s :: y :: xs => do
      let rest ← pyJoinStrings (y :: xs)
      pure (s ++ "\n" ++ rest)
  | _ => .error "TypeError: sequence item is not a string"

/-! ## `extract_text_from_response` (app.py lines 97-120)

The helper returns a string or raises (modelled by `Except.error`). -/

/-- The inner loop body over one candidate: when the candidate has a
truthy `content` attribute and that content has a truthy `parts`
attribute, collect the truthy `part.text` values and, when any were
found, return their newline-join, stripped. -/
def candidateText (candidate : PyVal) : Except String (Option String) :=
  match getAttr candidate "content" with
  | some content =>
      if truthy content then
        match getAttr content "parts" with
        | some parts =>
            if truthy parts then do
              let partsList ← pyIter parts
              let textParts := partsList.filterMap fun part =>
                match getAttr part "text" with
                | some t => if truthy t then some t else Option.none
                | Option.none => Option.none
              if textParts.isEmpty then
                pure Option.none
              else do
                let joined ← pyJoinStrings textParts
                pure (some (String.mk (pyStrip joined.data)))
            else pure Option.none
        | Option.none => pure Option.none
      else pure Option.none
  | Option.none => pure Option.none

/-- `for candidate in response.candidates`: the first candidate producing
text wins. -/
def candidatesLoop : List PyVal → Except String (Option String)
  | [] => pure Option.none
  | c :: cs => do
      match ← candidateText c with
      | some t => pure (some t)
      | Option.none => candidatesLoop cs

/-- The candidates branch followed by the `str(response).strip()`
fallback. -/
def tryCandidates (response : PyVal) : Except String String :=
  match getAttr response "candidates" with
  | some cands =>
      if truthy cands then do
        let cl ← pyIter cands
        match ← candidatesLoop cl with
        | some t => pure t
        | Option.none => pure (strFallback response)
      else pure (strFallback response)
  | Option.none => pure (strFallback response)

/-- `extract_text_from_response`: `None` gives `""`; a truthy direct
`text` attribute is stripped and returned; otherwise the candidates
structure is tried; otherwise `str(response).strip()`. -/
def extract_text_from_response (response : PyVal) : Except String String :=
  match response with
  | .noneVal => .ok ""
  | _ =>
      match getAttr response "text" with
      | some t => if truthy t then pyStripMethod t else tryCandidates response
      | Option.none => tryCandidates response

/-! ## `parse_tasks` (app.py lines 82-94)

The helper runs
`re.finditer(r"^(\d+)[\.\)\-]\s*(.+?)(?=\n\d+[\.\)\-]|\n\n|\Z)", text,
re.MULTILINE | re.DOTALL)` and collects `{"num": group 1, "text":
group 2 stripped}`.  We embed the matcher operationally: `^` matches at
the string start or right after a newline; `\d+` is a maximal digit run
(a digit never belongs to the marker class, so greedy, maximal, is
exact); the marker is one of `.`, `)`, `-`; `\s*` is a maximal
whitespace run, backtracking by a single character only when it reaches
the end of the input and leaves nothing for the mandatory `.+?`; the
lazy `.+?` (with DOTALL: any character, newline included) grows one
character at a time until the lookahead — a newline followed by digits
and a marker, a blank line, or the end of the input — succeeds, which it
always does at the very end of the input. -/

structure TaskItem where
  num : String
  text : String
deriving DecidableEq, Repr

/-- A digit, as matched by the pattern `\d` (ASCII fragment). -/
def isPyDigit (c : Char) : Bool := c.isDigit

/-- One of the markers `.`, `)`, `-` accepted after the task number. -/
def isMarker (c : Char) : Bool := c = '.' || c = ')' || c = '-'

/-- The `\d+[\.\)\-]` part of the lookahead: a nonempty digit run
followed by a marker. -/
def digitsThenMarker (rest : List Char) : Bool :=
  !(rest.takeWhile isPyDigit).isEmpty &&
    (match rest.drop (rest.takeWhile isPyDigit).length with
     | m :: _ => isMarker m
     | [] => false)

/-- The lookahead `(?=\n\d+[\.\)\-]|\n\n|\Z)` tested against the rest of
the input: it succeeds at the end of the input, or at a newline followed
by either another newline or a numbered-line start. -/
def lookaheadOk : List Char → Bool
  | [] => true
  | c :: rest =>
      c = '\n' &&
        ((match rest with
          | c2 :: _ => c2 = '\n'
          | [] => false)
         || digitsThenMarker rest)

/-- The lazy scan of `(.+?)(?=...)` after its first forced character:
keep consuming while the lookahead fails.  Returns the consumed content
(`acc` is the reversed prefix consumed so far) and the rest. -/
def scanGo (acc : List Char) : List Char → List Char × List Char
  | [] => (acc.reverse, [])
  | c :: rest =>
      if lookaheadOk (c :: rest) then (acc.reverse, c :: rest)
      else scanGo (c :: acc) rest

/-- One match attempt of the task pattern at a line-start position.
Returns the task and the unconsumed rest on success. -/
def matchAt (cs : List Char) : Option (TaskItem × List Char) :=
  let ds := cs.takeWhile isPyDigit
  if ds.isEmpty then Option.none
  else
    match cs.drop ds.length with
    | [] => Option.none
    | m :: rest =>
        if isMarker m then
          let w := rest.takeWhile isPySpace
          match rest.drop w.length with
          | [] =>
              -- `\s*` consumed everything up to the end: it backtracks by
              -- one character, which becomes the content and strips to "";
              -- with no whitespace at all, `.+?` has nothing to match.
              if w.isEmpty then Option.none
              else some (⟨String.mk ds, ""⟩, [])
          | a :: after =>
              let (content, rem) := scanGo [a] after
              some (⟨String.mk ds, String.mk (pyStrip content)⟩, rem)
        else Option.none

/-- The `finditer` driver: try the pattern at every line-start position,
resuming after the consumed part of each match.  `atStart` records
whether the current position begins a line.  After a successful match
the next position never begins a line (the last consumed character is a
newline only when nothing remains), so the driver resumes with
`atStart := false`.  The fuel is the remaining input length plus one;
every step consumes at least one character. -/
def parseGo : Nat → List Char → Bool → List TaskItem
  | 0, _, _ => []
  | _ + 1, [], _ => []
  | fuel + 1, c :: rest, atStart =>
      if atStart then
        match matchAt (c :: rest) with
        | some (t, rem) => t :: parseGo fuel rem false
        | Option.none => parseGo fuel rest (c = '\n')
      else parseGo fuel rest (c = '\n')

/-- `parse_tasks`: extract the numbered tasks of `text`. -/
def parse_tasks (text : String) : List TaskItem :=
  parseGo (text.data.length + 1) text.data true

/-- `"\n".join(f"{t.num}. {t.text}" for t in tasks)`: the re-joined form
used by the round-trip property. -/
def formatTask (t : TaskItem) : String := t.num ++ ". " ++ t.text

/-- Tasks joined as numbered lines separated by newlines. -/
def joinTasks : List TaskItem → String
  | [] => ""
  | [t] => formatTask t
  | t :: u :: ts => formatTask t ++ "\n" ++ joinTasks (u :: ts)

/-! ## Session state and stage handlers (app.py lines 21-58, 148-175,
206-249, 275-381)

The Streamlit session dictionary is modelled as a record with the keys
of `DEFAULT_STATE`; the external `client.models.generate_content` calls
are abstracted as `Except String PyVal` parameters (the remote service
either returns a response object or raises). -/

structure Session where
  plan_id : Option String
  tasks : Option (List TaskItem)
  research_text : Option String
  final_memo : Option String
  auth : Option Bool
  step2_status : Option String
  step3_status : Option String
  artifacts : List String
deriving DecidableEq

/-- `DEFAULT_STATE` (app.py lines 21-30). -/
def DEFAULT_STATE : Session :=
  { plan_id := Option.none, tasks := Option.none, research_text := Option.none,
    final_memo := Option.none, auth := Option.none, step2_status := Option.none,
    step3_status := Option.none, artifacts := [] }

/-- The Reset Everything handler (app.py lines 54-58): every session key
except `auth` is deleted; the rerun then refills the deleted keys with
their `DEFAULT_STATE` values. -/
def resetEverything (s : Session) : Session :=
  { DEFAULT_STATE with auth := s.auth }

/-- `safe_api_call` (app.py lines 123-129): a fallible call becomes
`(result, None)` on success and `(None, str(e))` on any raised
exception. -/
def safe_api_call (call : Except String PyVal) : Option PyVal × Option String :=
  match call with
  | .ok r => (some r, Option.none)
  | .error e => (Option.none, some e)

/-- The Generate Plan handler (app.py lines 148-175), given the outcome
of the wrapped planning call and the current epoch second.  The prompt
construction only feeds the abstracted external call and is omitted.
The session mutations all happen after the text extraction, so an
extraction fault (uncaught in this handler) leaves the session
untouched. -/
def generatePlanHandler (s : Session) (call : Except String PyVal) (now : Nat) :
    Session × List String :=
  match safe_api_call call with
  | (_, some err) => (s, ["❌ Planning failed: " ++ err])
  | (some response, Option.none) =>
      if truthy response then
        match extract_text_from_response response with
        | .error e => (s, ["Uncaught exception: " ++ e])
        | .ok text =>
            ({ s with
                tasks := some (parse_tasks text),
                plan_id := some ("plan_" ++ toString now),
                research_text := Option.none,
                final_memo := Option.none },
             ["✅ Plan generated successfully!"])
      else (s, [])
  | (Option.none, Option.none) => (s, [])

/-- The Start Research handler (app.py lines 206-249), given the outcome
of the wrapped research call.  Note that in this variant the handler
performs one direct synchronous `generate_content` call — there is no
polling loop here.  An exception escaping the extraction is caught by
the surrounding `except Exception` block. -/
def startResearchHandler (s : Session) (call : Except String PyVal) :
    Session × List String :=
  match safe_api_call call with
  | (_, some err) =>
      ({ s with step2_status := some "error" }, ["❌ Research failed: " ++ err])
  | (some response, Option.none) =>
      if truthy response then
        match extract_text_from_response response with
        | .error e =>
            ({ s with step2_status := some "error" }, ["❌ Unexpected error: " ++ e])
        | .ok text =>
            if !text.isEmpty && text.length > 100 then
              ({ s with
                  research_text := some text,
                  step2_status := some "complete",
                  final_memo := Option.none },
               ["✅ Research completed successfully!"])
            else
              ({ s with step2_status := some "incomplete" },
               ["⚠️ Research returned minimal results. Try adjusting your tasks."])
      else (s, [])
  | (Option.none, Option.none) => (s, [])

/-- `html_text.replace("```html", "").replace("```", "").strip()`
(app.py line 356). -/
def stripCodeFences (s : String) : String :=
  String.mk (pyStrip (((s.replace "```html" "").replace "```" "").data))

/-- The Generate Investment Memo handler (app.py lines 275-381), given
the outcomes of the wrapped analysis call and (when HTML is requested)
of the wrapped HTML-conversion call, and the current epoch second.  The
`include_financials` and `include_contacts` toggles only alter the
prompt fed to the abstracted external call and are omitted. -/
def generateAnalysisHandler (s : Session) (format_html : Bool)
    (call htmlCall : Except String PyVal) (now : Nat) : Session × List String :=
  match safe_api_call call with
  | (_, some err) =>
      ({ s with step3_status := some "error" }, ["❌ Analysis failed: " ++ err])
  | (some response, Option.none) =>
      if truthy response then
        match extract_text_from_response response with
        | .error e =>
            ({ s with step3_status := some "error" }, ["❌ Unexpected error: " ++ e])
        | .ok memoText =>
            if !memoText.isEmpty && memoText.length > 100 then
              if format_html then
                match safe_api_call htmlCall with
                | (some htmlResponse, Option.none) =>
                    if truthy htmlResponse then
                      match extract_text_from_response htmlResponse with
                      | .error e =>
                          ({ s with step3_status := some "error" },
                           ["❌ Unexpected error: " ++ e])
                      | .ok htmlText0 =>
                          let htmlFile := "outputs/memo_" ++ toString now ++ ".html"
                          let _ := stripCodeFences htmlText0
                          ({ s with
                              artifacts := s.artifacts ++ [htmlFile],
                              final_memo := some memoText,
                              step3_status := some "complete" },
                           ["✅ HTML report saved to: " ++ htmlFile,
                            "✅ Investment memo generated successfully!"])
                    else
                      ({ s with
                          final_memo := some memoText,
                          step3_status := some "complete" },
                       ["⚠️ HTML conversion failed, showing markdown version",
                        "✅ Investment memo generated successfully!"])
                | _ =>
                    ({ s with
                        final_memo := some memoText,
                        step3_status := some "complete" },
                     ["⚠️ HTML conversion failed, showing markdown version",
                      "✅ Investment memo generated successfully!"])
              else
                ({ s with
                    final_memo := some memoText,
                    step3_status := some "complete" },
                 ["✅ Investment memo generated successfully!"])
            else
              ({ s with step3_status := some "incomplete" },
               ["⚠️ Analysis returned minimal results."])
      else (s, [])
  | (Option.none, Option.none) => (s, [])

/-! ## The research polling loop -/

/-- Modelled from the spec: the Planned → Researched transition of the
repository variants outside `src/` submits a background research job and
then polls — "repeatedly fetch interaction status at a fixed interval
... terminating the loop when status is anything other than
in-progress", with "no timeout/cap on iterations".  The status source is
a function from poll iteration to the fetched status string; the loop is
unrolled up to `fuel` iterations starting at iteration `i`, returning
the first iteration whose status differs from "in_progress" together
with that status, and `none` when every inspected status is still
"in_progress". -/
def pollLoop (status : Nat → String) : Nat → Nat → Option (Nat × String)
  | _, 0 => Option.none
  | i, fuel + 1 =>
      let st := status i
      if st ≠ "in_progress" then some (i, st) else pollLoop status (i + 1) fuel

/-! ## Artifact tools (tools.py)

Each tool wraps its whole body in `try/except Exception` and returns a
status dictionary.  External effects — matplotlib rendering, the remote
generation calls, `tool_context.save_artifact` and the local file write
— are abstracted as `Except String` parameters; the local pure logic
(rate parsing, revenue projection, filename construction, code-fence
stripping, the inline-data search) is embedded directly. -/

structure ToolResult where
  status : String
  message : Option String
  artifact_path : Option String
  filename : Option String
  image_path : Option String
deriving DecidableEq

/-- An error-status result carrying the caught exception text. -/
def errorResult (e : String) : ToolResult :=
  { status := "error", message := some e, artifact_path := Option.none,
    filename := Option.none, image_path := Option.none }

/-- Digit run to its numeric value. -/
def digitsVal (ds : List Char) : Nat :=
  ds.foldl (fun a c => a * 10 + (c.toNat - 48)) 0

/-- Optional exponent suffix of a float literal. -/
def parseExp (v : Rat) : List Char → Option Rat
  | [] => some v
  | e :: t =>
      if e = 'e' || e = 'E' then
        let (neg, t2) : Bool × List Char :=
          match t with
          | '+' :: r => (false, r)
          | '-' :: r => (true, r)
          | r => (false, r)
        let ds := t2.takeWhile isPyDigit
        if ds.isEmpty || !(t2.drop ds.length).isEmpty then Option.none
        else some (if neg then v / (10 : Rat) ^ digitsVal ds
                   else v * (10 : Rat) ^ digitsVal ds)
      else Option.none

/-- The numeric forms accepted by `float(...)`: optional sign, integer
and/or fractional digits, optional exponent. -/
def parseFloatCore (cs0 : List Char) : Option Rat :=
  let (sign, cs) : Rat × List Char :=
    match cs0 with
    | '+' :: t => (1, t)
    | '-' :: t => (-1, t)
    | t => (1, t)
  let ip := cs.takeWhile isPyDigit
  match cs.drop ip.length with
  | '.' :: t =>
      let fp := t.takeWhile isPyDigit
      if ip.isEmpty && fp.isEmpty then Option.none
      else parseExp (sign * ((digitsVal ip : Rat) +
             (digitsVal fp : Rat) / (10 : Rat) ^ fp.length)) (t.drop fp.length)
  | rest =>
      if ip.isEmpty then Option.none
      else parseExp (sign * (digitsVal ip : Rat)) rest

/-- `float(x)`: surrounding whitespace is ignored; anything unparsable
raises `ValueError`. -/
def pyFloat (s : String) : Except String Rat :=
  match parseFloatCore (pyStrip s.data) with
  | some v => .ok v
  | Option.none => .error ("ValueError: could not convert string to float: " ++ s)

/-- `[float(x.strip()) for x in s.split(",")]` (tools.py lines 28-30). -/
def parseRates (s : String) : Except String (List Rat) :=
  (s.split (· = ',')).mapM fun x => pyFloat (String.mk (pyStrip x.data))

/-- `project` (tools.py lines 33-36): `arr = [start]; for r in rates:
arr.append(arr[-1] * r)`. -/
def project (start : Rat) : List Rat → List Rat
  | [] => [start]
  | r :: rs => start :: project (start * r) rs

/-- The `try/except` frame of `generate_financial_chart`: a successful
body yields the success dictionary with the artifact path, a caught
exception the error dictionary with its message. -/
def chartResult : Except String String → ToolResult
  | .ok p =>
      { status := "success", message := Option.none, artifact_path := some p,
        filename := Option.none, image_path := Option.none }
  | .error e => errorResult e

/-- `generate_financial_chart` (tools.py lines 18-63). -/
def generate_financial_chart (company_name : String) (current_arr : Rat)
    (bear_rates base_rates bull_rates : String)
    (plotOps : List Rat → List Rat → List Rat → List Nat → Except String Unit)
    (saveArtifact writeFile : Except String Unit) (nowStr : String) : ToolResult :=
  let body : Except String String := do
    let bear ← parseRates bear_rates
    let base ← parseRates base_rates
    let bull ← parseRates bull_rates
    let years := (List.range (base.length + 1)).map (2025 + ·)
    let _ ← plotOps (project current_arr bear) (project current_arr base)
      (project current_arr bull) years
    let fname := "chart_" ++ nowStr ++ ".png"
    let _ ← saveArtifact
    let _ ← writeFile
    pure ("outputs/" ++ fname)
  chartResult body

/-- `response.text` where the attribute must exist and support string
methods, as in `generate_html_report` (tools.py line 72). -/
def pyTextAttrString (v : PyVal) : Except String String :=
  match getAttr v "text" with
  | some (.str s) => .ok s
  | some _ => .error "AttributeError: object has no attribute replace"
  | Option.none => .error "AttributeError: object has no attribute text"

/-- The `try/except` frame of `generate_html_report`. -/
def htmlResult : Except String String → ToolResult
  | .ok f =>
      { status := "success", message := Option.none, artifact_path := Option.none,
        filename := some f, image_path := Option.none }
  | .error e => errorResult e

/-- `generate_html_report` (tools.py lines 65-82). -/
def generate_html_report (report_data : String) (genCall : Except String PyVal)
    (saveArtifact writeFile : Except String Unit) (nowStr : String) : ToolResult :=
  let body : Except String String := do
    let response ← genCall
    let t ← pyTextAttrString response
    let _ := stripCodeFences t
    let fname := "memo_" ++ nowStr ++ ".html"
    let _ ← saveArtifact
    let _ ← writeFile
    pure fname
  htmlResult body

/-- Attribute access that raises when the attribute is missing. -/
def pyAttr (v : PyVal) (name : String) : Except String PyVal :=
  match getAttr v name with
  | some x => .ok x
  | Option.none => .error ("AttributeError: object has no attribute " ++ name)

/-- `v[0]`. -/
def pyIndex0 (v : PyVal) : Except String PyVal :=
  match v with
  | .list (x :: _) => .ok x
  | .list [] => .error "IndexError: list index out of range"
  | .str s =>
      match s.data with
      | c :: _ => .ok (.str (String.mk [c]))
      | [] => .error "IndexError: string index out of range"
  | _ => .error "TypeError: object is not subscriptable"

/-- The `for part in ...: if part.inline_data:` search of
`generate_infographic`: the first part with truthy `inline_data` yields
its `data` payload. -/
def findInlinePart : List PyVal → Except String (Option PyVal)
  | [] => pure Option.none
  | p :: ps => do
      let idata ← pyAttr p "inline_data"
      if truthy idata then do
        let d ← pyAttr idata "data"
        pure (some d)
      else findInlinePart ps

/-- The `try/except` frame of `generate_infographic`, including the
in-band "No image part found." error for a loop that finds no inline
image data. -/
def infographicResult : Except String (Option String) → ToolResult
  | .ok (some p) =>
      { status := "success", message := Option.none, artifact_path := Option.none,
        filename := Option.none, image_path := some p }
  | .ok Option.none => errorResult "No image part found."
  | .error e => errorResult e

/-- `generate_infographic` (tools.py lines 84-106). -/
def generate_infographic (data_summary : String) (genCall : Except String PyVal)
    (saveArtifact writeFile : Except String Unit) (nowStr : String) : ToolResult :=
  let body : Except String (Option String) := do
    let response ← genCall
    let cands ← pyAttr response "candidates"
    let c0 ← pyIndex0 cands
    let content ← pyAttr c0 "content"
    let parts ← pyAttr content "parts"
    let pl ← pyIter parts
    let found ← findInlinePart pl
    match found with
    | some _ => do
        let _ ← saveArtifact
        let _ ← writeFile
        pure (some ("outputs/infographic_" ++ nowStr ++ ".png"))
    | Option.none => pure Option.none
  infographicResult body

/-- A position inside a piece of content where the lookahead would have
succeeded: some nonempty suffix satisfies it.  Content produced by the
lazy scan never contains one. -/
def hasInnerStop : List Char → Bool
  | [] => false
  | c :: rest => lookaheadOk (c :: rest) || hasInnerStop rest

/-- The shape invariant of every task produced by `parse_tasks`: the
number is a nonempty digit string, the text is stripped and free of
internal lookahead stops. -/
def taskInv (t : TaskItem) : Prop :=
  t.num.data ≠ [] ∧ (∀ c ∈ t.num.data, isPyDigit c = true) ∧
  pyStrip t.text.data = t.text.data ∧ hasInnerStop t.text.data = false

/-- The list-level invariant: every task satisfies `taskInv`, and only
the last task may have empty text (an empty text only arises from the
backtracking case, which consumes the input to its end). -/
def tasksInv : List TaskItem → Prop
  | [] => True
  | [t] => taskInv t
  | t :: u :: ts => taskInv t ∧ t.text ≠ "" ∧ tasksInv (u :: ts)

/-- The invariant C10 asks of a tool result: the status is "success" or
"error", and an error result carries a message. -/
def statusTotal (r : ToolResult) : Prop :=
  (r.status = "success" ∨ r.status = "error") ∧
  (r.status = "error" → r.message.isSome = true) ∧
  (r.status = "success" → r.message = Option.none)

/-- A generalized numbered task line: digits, one of the three markers,
a whitespace run, and content. -/
structure TaskLine where
  numd : List Char
  mark : Char
  wsp : List Char
  txt : List Char

/-- The characters of a task line. -/
def lineData (L : TaskLine) : List Char :=
  L.numd ++ L.mark :: (L.wsp ++ L.txt)

/-- The well-formedness of a task line: nonempty digits, a marker,
whitespace in the run, and nonempty stripped content containing no
position at which the lookahead would fire. -/
def lineOk (L : TaskLine) : Prop :=
  L.numd ≠ [] ∧ (∀ c ∈ L.numd, isPyDigit c = true) ∧
  isMarker L.mark = true ∧ (∀ c ∈ L.wsp, isPySpace c = true) ∧
  L.txt ≠ [] ∧ pyStrip L.txt = L.txt ∧ hasInnerStop L.txt = false

/-- Task lines joined into one text, each consecutive pair separated
either by a blank line (`true`) or by a single newline (`false`) — the
two content terminators of the pattern besides the end of the input. -/
def joinLines : TaskLine → List (Bool × TaskLine) → List Char
  | L, [] => lineData L
  | L, (blank, L2) :: rest =>
      lineData L ++ (if blank then ['\n', '\n'] else ['\n']) ++ joinLines L2 rest

/-! ## Theorems -/

/-- C8: `parse_tasks` applied to the exact input
`"1. Find founders\n2. Analyze market\n3. Check financials"` yields
exactly three tasks, with verbatim number strings "1", "2", "3" and
descriptions "Find founders", "Analyze market", "Check financials", in
that order of appearance. -/
theorem parse_tasks_three_item_plan :
    parse_tasks "1. Find founders\n2. Analyze market\n3. Check financials" =
      [⟨"1", "Find founders"⟩, ⟨"2", "Analyze market"⟩, ⟨"3", "Check financials"⟩] := by
  rfl

/-- C5: the reset action, invoked from any state, clears every workflow
field of the session — plan id, tasks, research text, final memo, both
step statuses and the artifact list — while leaving the authentication
flag unchanged. -/
theorem reset_clears_workflow_preserves_auth (s : Session) :
    (resetEverything s).plan_id = Option.none ∧
    (resetEverything s).tasks = Option.none ∧
    (resetEverything s).research_text = Option.none ∧
    (resetEverything s).final_memo = Option.none ∧
    (resetEverything s).step2_status = Option.none ∧
    (resetEverything s).step3_status = Option.none ∧
    (resetEverything s).artifacts = [] ∧
    (resetEverything s).auth = s.auth :=
  ⟨rfl, rfl, rfl, rfl, rfl, rfl, rfl, rfl⟩

/-- C4: at each of the three stage transitions, a raised exception in the
wrapped external call is caught, its message is surfaced verbatim inside
the displayed error text, and the stage-defining session fields — plan
id, tasks, research text, final memo — are exactly what they were before
the failed action. -/
theorem call_failure_caught_and_state_preserved (s : Session) (e : String)
    (format_html : Bool) (htmlCall : Except String PyVal) (now : Nat) :
    generatePlanHandler s (Except.error e) now = (s, ["❌ Planning failed: " ++ e]) ∧
    ((startResearchHandler s (Except.error e)).1.plan_id = s.plan_id ∧
     (startResearchHandler s (Except.error e)).1.tasks = s.tasks ∧
     (startResearchHandler s (Except.error e)).1.research_text = s.research_text ∧
     (startResearchHandler s (Except.error e)).1.final_memo = s.final_memo ∧
     (startResearchHandler s (Except.error e)).2 = ["❌ Research failed: " ++ e]) ∧
    ((generateAnalysisHandler s format_html (Except.error e) htmlCall now).1.plan_id = s.plan_id ∧
     (generateAnalysisHandler s format_html (Except.error e) htmlCall now).1.tasks = s.tasks ∧
     (generateAnalysisHandler s format_html (Except.error e) htmlCall now).1.research_text = s.research_text ∧
     (generateAnalysisHandler s format_html (Except.error e) htmlCall now).1.final_memo = s.final_memo ∧
     (generateAnalysisHandler s format_html (Except.error e) htmlCall now).2 = ["❌ Analysis failed: " ++ e]) :=
  ⟨rfl, ⟨rfl, rfl, rfl, rfl, rfl⟩, ⟨rfl, rfl, rfl, rfl, rfl⟩⟩

/-- The polling loop, unrolled `fuel` times from iteration `i`, yields
`none` exactly when every status inspected in that window is still
"in_progress". -/
lemma pollLoop_none_iff (status : Nat → String) :
    ∀ (fuel i : Nat),
      pollLoop status i fuel = Option.none ↔
        ∀ k, k < fuel → status (i + k) = "in_progress" := by
  intro fuel
  induction fuel with
  | zero => intro i; simp [pollLoop]
  | succ f ih =>
      intro i
      by_cases h : status i = "in_progress"
      · have hstep : pollLoop status i (f + 1) = pollLoop status (i + 1) f := by
          simp [pollLoop, h]
        rw [hstep, ih (i + 1)]
        constructor
        · intro hall k hk
          match k, hk with
          | 0, _ => simpa using h
          | k + 1, hk =>
              have := hall k (by omega)
              simpa [Nat.add_assoc, Nat.add_comm 1 k] using this
        · intro hall k hk
          have := hall (k + 1) (by omega)
          simpa [Nat.add_assoc, Nat.add_comm 1 k] using this
      · constructor
        · intro hnone
          have : pollLoop status i (f + 1) = some (i, status i) := by
            simp [pollLoop, h]
          rw [this] at hnone
          exact absurd hnone (by simp)
        · intro hall
          exact absurd (by simpa using hall 0 (by omega)) h

/-- The polling loop only ever returns an iteration whose fetched status
differs from "in_progress", together with that status. -/
lemma pollLoop_some_spec (status : Nat → String) :
    ∀ (fuel i n : Nat) (st : String),
      pollLoop status i fuel = some (n, st) →
        st = status n ∧ status n ≠ "in_progress" := by
  intro fuel
  induction fuel with
  | zero => intro i n st h; simp [pollLoop] at h
  | succ f ih =>
      intro i n st h
      by_cases hs : status i = "in_progress"
      · have hstep : pollLoop status i (f + 1) = pollLoop status (i + 1) f := by
          simp [pollLoop, hs]
        exact ih (i + 1) n st (hstep ▸ h)
      · have : pollLoop status i (f + 1) = some (i, status i) := by
          simp [pollLoop, hs]
        rw [this] at h
        obtain ⟨h1, h2⟩ := Prod.mk.injEq .. ▸ Option.some.injEq .. ▸ h
        constructor
        · rw [← h1, ← h2]
        · rw [← h1]; exact hs

/-- C1 (modelled from the spec; see `pollLoop`): for every status source
the polling loop terminates within the inspected window exactly when
some fetched status in it differs from "in_progress" — so it terminates
in finitely many iterations once the status changes, does not terminate
while the status remains "in_progress", and on termination reports an
iteration whose status is not "in_progress". -/
theorem pollLoop_terminates_iff_status_change (status : Nat → String) (fuel : Nat) :
    (pollLoop status 0 fuel = Option.none ↔
       ∀ k, k < fuel → status k = "in_progress") ∧
    (∀ n st, pollLoop status 0 fuel = some (n, st) →
       st = status n ∧ status n ≠ "in_progress") := by
  constructor
  · simpa using pollLoop_none_iff status fuel 0
  · intro n st h
    exact pollLoop_some_spec status fuel 0 n st h

lemma chartResult_statusTotal (b : Except String String) :
    statusTotal (chartResult b) := by
  cases b <;> simp [chartResult, errorResult, statusTotal]

lemma htmlResult_statusTotal (b : Except String String) :
    statusTotal (htmlResult b) := by
  cases b <;> simp [htmlResult, errorResult, statusTotal]

lemma infographicResult_statusTotal (b : Except String (Option String)) :
    statusTotal (infographicResult b) := by
  cases b with
  | ok o => cases o <;> simp [infographicResult, errorResult, statusTotal]
  | error e => simp [infographicResult, errorResult, statusTotal]

/-- C10: each artifact tool is total over exceptions — for every input it
returns a dictionary whose status is "success" or "error" and never
propagates an exception; an error result carries a message, and when the
wrapped generation call itself raises, the error dictionary carries that
exception's message verbatim. -/
theorem artifact_tools_total_over_exceptions
    (company_name : String) (current_arr : Rat) (br bsr blr : String)
    (plotOps : List Rat → List Rat → List Rat → List Nat → Except String Unit)
    (sa1 wf1 : Except String Unit) (n1 : String)
    (report : String) (g2 : Except String PyVal)
    (sa2 wf2 : Except String Unit) (n2 : String)
    (summary : String) (g3 : Except String PyVal)
    (sa3 wf3 : Except String Unit) (n3 : String) (e : String) :
    statusTotal (generate_financial_chart company_name current_arr br bsr blr
      plotOps sa1 wf1 n1) ∧
    statusTotal (generate_html_report report g2 sa2 wf2 n2) ∧
    statusTotal (generate_infographic summary g3 sa3 wf3 n3) ∧
    generate_html_report report (Except.error e) sa2 wf2 n2 = errorResult e ∧
    generate_infographic summary (Except.error e) sa3 wf3 n3 = errorResult e :=
  ⟨chartResult_statusTotal _, htmlResult_statusTotal _,
   infographicResult_statusTotal _, rfl, rfl⟩

/-- C9: successful completion of an earlier stage invalidates later-stage
results — a successful plan generation resets `research_text` and
`final_memo` to `None`, and a successful research run resets
`final_memo` to `None`. -/
theorem stage_success_resets_downstream :
    (∀ (s : Session) (r : PyVal) (text : String) (now : Nat),
       truthy r = true →
       extract_text_from_response r = Except.ok text →
       (generatePlanHandler s (Except.ok r) now).1.research_text = Option.none ∧
       (generatePlanHandler s (Except.ok r) now).1.final_memo = Option.none) ∧
    (∀ (s : Session) (r : PyVal) (text : String),
       truthy r = true →
       extract_text_from_response r = Except.ok text →
       (!text.isEmpty && text.length > 100) = true →
       (startResearchHandler s (Except.ok r)).1.final_memo = Option.none) := by
  constructor
  · intro s r text now htr hex
    simp [generatePlanHandler, safe_api_call, htr, hex]
  · intro s r text htr hex hlong
    simp [startResearchHandler, safe_api_call, htr, hex, hlong]

set_option maxRecDepth 8192 in
/-- Witness for C9 at a concrete response object bearing a 120-character
text attribute. -/
theorem stage_success_resets_downstream_witness :
    (generatePlanHandler DEFAULT_STATE
       (Except.ok (PyVal.obj [("text", PyVal.str
         "xxxxxxxxxxxxxxxxxxxxxxxxxxxxxxxxxxxxxxxxxxxxxxxxxxxxxxxxxxxxxxxxxxxxxxxxxxxxxxxxxxxxxxxxxxxxxxxxxxxxxxxxxxxxxxxxxxxxxxxx")])) 0).1.research_text
      = Option.none ∧
    (startResearchHandler DEFAULT_STATE
       (Except.ok (PyVal.obj [("text", PyVal.str
         "xxxxxxxxxxxxxxxxxxxxxxxxxxxxxxxxxxxxxxxxxxxxxxxxxxxxxxxxxxxxxxxxxxxxxxxxxxxxxxxxxxxxxxxxxxxxxxxxxxxxxxxxxxxxxxxxxxxxxxxx")]))).1.final_memo
      = Option.none :=
  ⟨(stage_success_resets_downstream.1 DEFAULT_STATE _ _ 0 (by rfl) (by rfl)).1,
   stage_success_resets_downstream.2 DEFAULT_STATE _
     "xxxxxxxxxxxxxxxxxxxxxxxxxxxxxxxxxxxxxxxxxxxxxxxxxxxxxxxxxxxxxxxxxxxxxxxxxxxxxxxxxxxxxxxxxxxxxxxxxxxxxxxxxxxxxxxxxxxxxxxx"
     (by rfl) (by rfl) (by rfl)⟩

/-- When the response bears no truthy `text` attribute and no truthy
`candidates` attribute, the helper reaches the `str(response).strip()`
fallback; no raise is possible on that path. -/
lemma extract_fallback (r : PyVal) (hne : r ≠ PyVal.noneVal)
    (ht : ∀ t, getAttr r "text" = some t → truthy t = false)
    (hc : ∀ c, getAttr r "candidates" = some c → truthy c = false) :
    extract_text_from_response r = Except.ok (strFallback r) := by
  have h2 : tryCandidates r = Except.ok (strFallback r) := by
    unfold tryCandidates
    cases hcand : getAttr r "candidates" with
    | none => rfl
    | some c =>
        have hcf := hc c hcand
        simp [hcf]
        rfl
  cases r with
  | noneVal => exact absurd rfl hne
  | str s => exact h2
  | list xs => exact h2
  | obj attrs =>
      show (match getAttr (PyVal.obj attrs) "text" with
            | some t =>
                if truthy t then pyStripMethod t
                else tryCandidates (PyVal.obj attrs)
            | Option.none => tryCandidates (PyVal.obj attrs)) = _
      cases htxt : getAttr (PyVal.obj attrs) "text" with
      | none => exact h2
      | some t =>
          have htf := ht t htxt
          simp [htf, h2]

/-- C2 counterexample: on the empty sequence input the helper returns
"[]" — the string coercion — not the empty string; and on an object
whose `text` attribute holds a truthy non-string value it raises rather
than returning. -/
theorem extract_empty_sequence_counterexample :
    extract_text_from_response (PyVal.list []) = Except.ok "[]" ∧
    "[]" ≠ "" ∧
    extract_text_from_response (PyVal.obj [("text", PyVal.list [PyVal.str "x"])]) =
      Except.error "AttributeError: object has no attribute strip" :=
  ⟨rfl, by decide, rfl⟩

/-- C2 amended: the helper returns the empty string for `None`; for an
empty sequence it returns the non-empty string coercion "[]" (and the
coercion for any list input); and it cannot raise on any input exposing
neither a truthy `text` attribute nor a truthy `candidates` attribute —
the stripped string coercion is returned there.  (It can raise when a
recognized text-bearing field holds a truthy non-string value.) -/
theorem extract_none_and_empty_sequence_amended :
    extract_text_from_response PyVal.noneVal = Except.ok "" ∧
    extract_text_from_response (PyVal.list []) = Except.ok "[]" ∧
    (∀ xs : List PyVal,
       extract_text_from_response (PyVal.list xs) =
         Except.ok (strFallback (PyVal.list xs))) ∧
    (∀ r : PyVal, r ≠ PyVal.noneVal →
       (∀ t, getAttr r "text" = some t → truthy t = false) →
       (∀ c, getAttr r "candidates" = some c → truthy c = false) →
       extract_text_from_response r = Except.ok (strFallback r)) := by
  refine ⟨rfl, rfl, ?_, ?_⟩
  · intro xs
    exact extract_fallback _ (by intro h; cases h)
      (fun t h => Option.noConfusion h) (fun c h => Option.noConfusion h)
  · intro r h1 h2 h3
    exact extract_fallback r h1 h2 h3

/-- Witness for the amended C2, at an attribute-less object: the
unrecognized shape degrades to the string coercion without raising. -/
theorem extract_none_and_empty_sequence_amended_witness :
    extract_text_from_response (PyVal.obj []) = Except.ok "namespace()" :=
  extract_none_and_empty_sequence_amended.2.2.2 (PyVal.obj [])
    (by intro h; cases h) (fun t h => Option.noConfusion h)
    (fun c h => Option.noConfusion h)

/-- C6 counterexample: an object exposing only a top-level list of
text-bearing parts does not yield the newline-join of the part texts —
it falls through to the string coercion of the whole object. -/
theorem extract_top_level_parts_counterexample :
    extract_text_from_response
        (PyVal.obj [("parts", PyVal.list [PyVal.obj [("text", PyVal.str "hello")]])]) =
      Except.ok (strFallback
        (PyVal.obj [("parts", PyVal.list [PyVal.obj [("text", PyVal.str "hello")]])])) ∧
    strFallback
        (PyVal.obj [("parts", PyVal.list [PyVal.obj [("text", PyVal.str "hello")]])]) ≠
      "hello" :=
  ⟨rfl, by decide⟩

/-- C6 amended: the helper tries, in order, a truthy direct `text` field
(returned stripped); then the `candidates` structure, where the first
candidate whose `content.parts` holds truthy part texts yields their
newline-join; and only when neither applies does it fall back to the
string coercion of the whole object.  There is no top-level `parts`
shape: an object exposing only a top-level list of text-bearing parts
yields the string coercion, not the join. -/
theorem extract_shape_order_amended :
    (∀ (r : PyVal) (sTxt : String),
       getAttr r "text" = some (PyVal.str sTxt) → sTxt ≠ "" →
       extract_text_from_response r = Except.ok (String.mk (pyStrip sTxt.data))) ∧
    (∀ (r : PyVal) (cl : List PyVal) (t : String),
       (∀ t0, getAttr r "text" = some t0 → truthy t0 = false) →
       getAttr r "candidates" = some (PyVal.list cl) → cl ≠ [] →
       candidatesLoop cl = Except.ok (some t) →
       extract_text_from_response r = Except.ok t) ∧
    (∀ r : PyVal, r ≠ PyVal.noneVal →
       (∀ t0, getAttr r "text" = some t0 → truthy t0 = false) →
       (∀ c, getAttr r "candidates" = some c → truthy c = false) →
       extract_text_from_response r = Except.ok (strFallback r)) ∧
    (∀ ps : PyVal,
       extract_text_from_response (PyVal.obj [("parts", ps)]) =
         Except.ok (strFallback (PyVal.obj [("parts", ps)]))) := by
  refine ⟨?_, ?_, ?_, ?_⟩
  · intro r sTxt hattr hne
    cases r with
    | noneVal => exact Option.noConfusion hattr
    | str s => exact Option.noConfusion hattr
    | list xs => exact Option.noConfusion hattr
    | obj attrs =>
        have hie : sTxt.isEmpty = false := by
          cases hb : sTxt.isEmpty
          · rfl
          · exact absurd ((String.isEmpty_iff sTxt).mp hb) hne
        have htr : truthy (PyVal.str sTxt) = true := by
          simp [truthy, hie]
        show (match getAttr (PyVal.obj attrs) "text" with
              | some t =>
                  if truthy t then pyStripMethod t
                  else tryCandidates (PyVal.obj attrs)
              | Option.none => tryCandidates (PyVal.obj attrs)) = _
        rw [hattr]
        simp [htr, pyStripMethod]
  · intro r cl t htxt hcand hne hloop
    obtain ⟨c0, cl0, rfl⟩ := List.exists_cons_of_ne_nil hne
    have h2 : tryCandidates r = Except.ok t := by
      have hstep : tryCandidates r =
          (candidatesLoop (c0 :: cl0) >>= fun l =>
            match l with
            | some t0 => pure t0
            | Option.none => pure (strFallback r)) := by
        unfold tryCandidates
        rw [hcand]
        rfl
      rw [hstep, hloop]
      rfl
    cases r with
    | noneVal => exact Option.noConfusion hcand
    | str s => exact Option.noConfusion hcand
    | list xs => exact Option.noConfusion hcand
    | obj attrs =>
        show (match getAttr (PyVal.obj attrs) "text" with
              | some t0 =>
                  if truthy t0 then pyStripMethod t0
                  else tryCandidates (PyVal.obj attrs)
              | Option.none => tryCandidates (PyVal.obj attrs)) = _
        cases ht0 : getAttr (PyVal.obj attrs) "text" with
        | none => exact h2
        | some t0 =>
            have h3 := htxt t0 ht0
            simp [h3, h2]
  · intro r h1 h2 h3
    exact extract_fallback r h1 h2 h3
  · intro ps
    exact extract_fallback _ (by intro h; cases h)
      (fun t h => by
        have : List.lookup "text" [("parts", ps)] = Option.none := rfl
        rw [show getAttr (PyVal.obj [("parts", ps)]) "text" =
              List.lookup "text" [("parts", ps)] from rfl, this] at h
        exact Option.noConfusion h)
      (fun c h => by
        have : List.lookup "candidates" [("parts", ps)] = Option.none := rfl
        rw [show getAttr (PyVal.obj [("parts", ps)]) "candidates" =
              List.lookup "candidates" [("parts", ps)] from rfl, this] at h
        exact Option.noConfusion h)

/-- Witness for the amended C6, at concrete inputs for each recognized
shape: a direct text attribute is stripped; a candidates structure is
newline-joined; a top-level parts object degrades to the coercion. -/
theorem extract_shape_order_amended_witness :
    extract_text_from_response (PyVal.obj [("text", PyVal.str "  hi  ")]) =
      Except.ok "hi" ∧
    extract_text_from_response
        (PyVal.obj [("candidates", PyVal.list
          [PyVal.obj [("content", PyVal.obj [("parts", PyVal.list
            [PyVal.obj [("text", PyVal.str "a")],
             PyVal.obj [("text", PyVal.str "b")]])])]])]) =
      Except.ok "a\nb" ∧
    extract_text_from_response (PyVal.obj [("parts", PyVal.list [])]) =
      Except.ok "namespace(parts=[])" :=
  ⟨extract_shape_order_amended.1 _ "  hi  " rfl (by decide),
   extract_shape_order_amended.2.1 _
     [PyVal.obj [("content", PyVal.obj [("parts", PyVal.list
       [PyVal.obj [("text", PyVal.str "a")],
        PyVal.obj [("text", PyVal.str "b")]])])]] "a\nb"
     (fun t0 h => Option.noConfusion h) rfl
     (fun h => List.noConfusion h) rfl,
   extract_shape_order_amended.2.2.2 (PyVal.list [])⟩

/-! ### List and strip helper lemmas for the parse development -/

lemma drop_takeWhile_length (p : Char → Bool) (l : List Char) :
    l.drop (l.takeWhile p).length = l.dropWhile p := by
  induction l with
  | nil => rfl
  | cons c t ih =>
      by_cases h : p c <;>
        simp [List.takeWhile_cons, List.dropWhile_cons, h, ih]

lemma dropWhile_head_not (p : Char → Bool) (l : List Char) (c : Char) (t : List Char)
    (h : l.dropWhile p = c :: t) : p c = false := by
  induction l with
  | nil => cases h
  | cons a t2 ih =>
      rw [List.dropWhile_cons] at h
      by_cases ha : p a
      · simp [ha] at h; exact ih h
      · simp [ha] at h; rw [← h.1]; simpa using ha

lemma takeWhile_all_append (p : Char → Bool) (l1 l2 : List Char)
    (h : ∀ c ∈ l1, p c = true) :
    (l1 ++ l2).takeWhile p = l1 ++ l2.takeWhile p := by
  induction l1 with
  | nil => rfl
  | cons a t ih =>
      have ha : p a = true := h a (by simp)
      rw [List.cons_append, List.takeWhile_cons]
      simp only [ha, if_true, List.cons_append]
      rw [ih (fun c hc => h c (by simp [hc]))]

lemma takeWhile_cons_neg (p : Char → Bool) (c : Char) (l : List Char) (h : p c = false) :
    (c :: l).takeWhile p = [] := by
  simp [List.takeWhile_cons, h]

lemma prefix_head? (l pr : List Char) (c : Char) (t : List Char)
    (hp : pr <+: l) (hc : pr = c :: t) : l.head? = some c := by
  obtain ⟨r, hr⟩ := hp
  subst hc
  rw [← hr]
  rfl

lemma suffix_getLast? (s l : List Char) (hs : s <:+ l) (hne : s ≠ []) :
    l.getLast? = s.getLast? := by
  obtain ⟨t, ht⟩ := hs
  rw [← ht]
  exact List.getLast?_append_of_ne_nil t hne

lemma dropWhile_rev_prefix (p : Char → Bool) (l : List Char) :
    (l.reverse.dropWhile p).reverse <+: l := by
  have h1 : l.reverse.dropWhile p <:+ l.reverse := List.dropWhile_suffix p
  have h2 : ((l.reverse.dropWhile p).reverse).reverse <:+ l.reverse := by
    rwa [List.reverse_reverse]
  exact (List.reverse_suffix).mp h2

lemma pyStrip_prefix_of_head (a : Char) (l : List Char) (ha : isPySpace a = false) :
    pyStrip (a :: l) <+: (a :: l) ∧ pyStrip (a :: l) ≠ [] := by
  have hfront : (a :: l).dropWhile isPySpace = a :: l := by
    simp [List.dropWhile_cons, ha]
  constructor
  · show (((a :: l).dropWhile isPySpace).reverse.dropWhile isPySpace).reverse <+: _
    rw [hfront]
    exact dropWhile_rev_prefix _ _
  · show (((a :: l).dropWhile isPySpace).reverse.dropWhile isPySpace).reverse ≠ []
    rw [hfront]
    intro h
    have h2 : (a :: l).reverse.dropWhile isPySpace = [] := by
      have := congrArg List.reverse h
      simpa using this
    have h3 := (List.dropWhile_eq_nil_iff).mp h2 a (by simp)
    rw [ha] at h3
    cases h3

lemma pyStrip_eq_self_of_ends (l : List Char)
    (hh : ∀ c, l.head? = some c → isPySpace c = false)
    (hl : ∀ c, l.getLast? = some c → isPySpace c = false) :
    pyStrip l = l := by
  cases l with
  | nil => rfl
  | cons c t =>
      have hc := hh c rfl
      have hfront : (c :: t).dropWhile isPySpace = c :: t := by
        simp [List.dropWhile_cons, hc]
      show (((c :: t).dropWhile isPySpace).reverse.dropWhile isPySpace).reverse = _
      rw [hfront]
      cases hrev : (c :: t).reverse with
      | nil => exact absurd hrev (by simp)
      | cons d r =>
          have hd : isPySpace d = false := by
            apply hl
            rw [← List.head?_reverse, hrev]
            rfl
          have hdrop : List.dropWhile isPySpace (d :: r) = d :: r := by
            simp [List.dropWhile_cons, hd]
          rw [hdrop, show d :: r = (c :: t).reverse from hrev.symm]
          exact List.reverse_reverse _

lemma pyStrip_ends (l : List Char) :
    (∀ c, (pyStrip l).head? = some c → isPySpace c = false) ∧
    (∀ c, (pyStrip l).getLast? = some c → isPySpace c = false) := by
  constructor
  · intro c hc
    have hpre : pyStrip l <+: l.dropWhile isPySpace := dropWhile_rev_prefix _ _
    cases hsp : pyStrip l with
    | nil => rw [hsp] at hc; cases hc
    | cons c0 t0 =>
        rw [hsp] at hc
        have hc0 : c0 = c := by injection hc
        subst hc0
        have hhead : (l.dropWhile isPySpace).head? = some c0 :=
          prefix_head? _ _ _ _ (hsp ▸ hpre) rfl
        cases hdw : l.dropWhile isPySpace with
        | nil => rw [hdw] at hhead; cases hhead
        | cons d r =>
            rw [hdw] at hhead
            have hd : d = c0 := by injection hhead
            subst hd
            exact dropWhile_head_not _ l d r hdw
  · intro c hc
    have hlast : (pyStrip l).getLast? =
        ((l.dropWhile isPySpace).reverse.dropWhile isPySpace).head? := by
      show ((((l.dropWhile isPySpace).reverse.dropWhile isPySpace)).reverse).getLast? = _
      rw [List.getLast?_reverse]
    rw [hlast] at hc
    cases hdw : (l.dropWhile isPySpace).reverse.dropWhile isPySpace with
    | nil => rw [hdw] at hc; cases hc
    | cons d r =>
        rw [hdw] at hc
        have hd : d = c := by injection hc
        subst hd
        exact dropWhile_head_not _ _ d r hdw

lemma pyStrip_idem (l : List Char) : pyStrip (pyStrip l) = pyStrip l :=
  pyStrip_eq_self_of_ends _ (pyStrip_ends l).1 (pyStrip_ends l).2

/-! ### Lookahead lemmas -/

lemma band_elim {a b : Bool} (h : (a && b) = true) : a = true ∧ b = true := by
  simpa using h

lemma band_intro {a b : Bool} (h1 : a = true) (h2 : b = true) : (a && b) = true := by
  simp [h1, h2]

lemma bor_elim {a b : Bool} (h : (a || b) = true) : a = true ∨ b = true := by
  simpa using h

lemma bor_intro {a b : Bool} (h : a = true ∨ b = true) : (a || b) = true := by
  rcases h with h | h <;> simp [h]

lemma marker_not_digit (m : Char) (h : isMarker m = true) : isPyDigit m = false := by
  unfold isMarker at h
  rcases bor_elim h with h1 | h2
  · rcases bor_elim h1 with h3 | h4
    · rw [of_decide_eq_true h3]; decide
    · rw [of_decide_eq_true h4]; decide
  · rw [of_decide_eq_true h2]; decide

lemma lookaheadOk_singleton (c : Char) : lookaheadOk [c] = false := by
  simp [lookaheadOk, digitsThenMarker]

lemma digitsThenMarker_append_true (s2 tail : List Char)
    (h : digitsThenMarker s2 = true) :
    digitsThenMarker (s2 ++ tail) = true := by
  unfold digitsThenMarker at h ⊢
  obtain ⟨hne, hmk⟩ := band_elim h
  rw [drop_takeWhile_length] at hmk
  cases hdw : s2.dropWhile isPyDigit with
  | nil => rw [hdw] at hmk; cases hmk
  | cons m r2 =>
      rw [hdw] at hmk
      have hmd : isPyDigit m = false := dropWhile_head_not _ _ _ _ hdw
      have hsplit : s2.takeWhile isPyDigit ++ (m :: r2) = s2 := by
        rw [← hdw]; exact List.takeWhile_append_dropWhile _ _
      have htw : (s2 ++ tail).takeWhile isPyDigit = s2.takeWhile isPyDigit := by
        conv_lhs => rw [← hsplit]
        rw [List.append_assoc,
            takeWhile_all_append _ _ _ (fun c hc => List.mem_takeWhile_imp hc),
            List.cons_append, takeWhile_cons_neg _ _ _ hmd, List.append_nil]
      have hdrop : (s2 ++ tail).drop (s2.takeWhile isPyDigit).length =
          m :: (r2 ++ tail) := by
        have hre : s2 ++ tail = s2.takeWhile isPyDigit ++ (m :: (r2 ++ tail)) := by
          rw [show m :: (r2 ++ tail) = (m :: r2) ++ tail from rfl,
              ← List.append_assoc, hsplit]
        rw [hre]
        exact List.drop_left _ _
      rw [htw, hdrop]
      exact band_intro hne hmk

lemma digitsThenMarker_all_digits (s2 tail : List Char)
    (h : ∀ c ∈ s2, isPyDigit c = true)
    (htail : tail = [] ∨ tail.head? = some '\n') :
    digitsThenMarker (s2 ++ tail) = false := by
  unfold digitsThenMarker
  have htw2 : tail.takeWhile isPyDigit = [] := by
    rcases htail with rfl | hh
    · rfl
    · cases tail with
      | nil => rfl
      | cons c t2 =>
          have : c = '\n' := by injection hh
          subst this
          exact takeWhile_cons_neg _ _ _ (by decide)
  have htw : (s2 ++ tail).takeWhile isPyDigit = s2 := by
    rw [takeWhile_all_append _ _ _ h, htw2, List.append_nil]
  rw [htw, List.drop_left]
  rcases htail with rfl | hh
  · simp
  · cases tail with
    | nil => simp
    | cons c t2 =>
        have : c = '\n' := by injection hh
        subst this
        simp [isMarker]

lemma digitsThenMarker_append_stop (s2 tail : List Char)
    (h : s2.dropWhile isPyDigit ≠ []) :
    digitsThenMarker (s2 ++ tail) = digitsThenMarker s2 := by
  cases hdw : s2.dropWhile isPyDigit with
  | nil => exact absurd hdw h
  | cons m r2 =>
      have hmd : isPyDigit m = false := dropWhile_head_not _ _ _ _ hdw
      have hsplit : s2.takeWhile isPyDigit ++ (m :: r2) = s2 := by
        rw [← hdw]; exact List.takeWhile_append_dropWhile _ _
      have htw : (s2 ++ tail).takeWhile isPyDigit = s2.takeWhile isPyDigit := by
        conv_lhs => rw [← hsplit]
        rw [List.append_assoc,
            takeWhile_all_append _ _ _ (fun c hc => List.mem_takeWhile_imp hc),
            List.cons_append, takeWhile_cons_neg _ _ _ hmd, List.append_nil]
      have hdrop : (s2 ++ tail).drop (s2.takeWhile isPyDigit).length =
          m :: (r2 ++ tail) := by
        have hre : s2 ++ tail = s2.takeWhile isPyDigit ++ (m :: (r2 ++ tail)) := by
          rw [show m :: (r2 ++ tail) = (m :: r2) ++ tail from rfl,
              ← List.append_assoc, hsplit]
        rw [hre]
        exact List.drop_left _ _
      have hdrop2 : s2.drop (s2.takeWhile isPyDigit).length = m :: r2 := by
        rw [drop_takeWhile_length, hdw]
      unfold digitsThenMarker
      rw [htw, hdrop, hdrop2]

lemma lookahead_extend (s r : List Char) (hne : s ≠ [])
    (h : lookaheadOk s = true) : lookaheadOk (s ++ r) = true := by
  cases s with
  | nil => exact absurd rfl hne
  | cons c s2 =>
      cases s2 with
      | nil => rw [lookaheadOk_singleton] at h; cases h
      | cons c2 s3 =>
          unfold lookaheadOk at h
          obtain ⟨hc, hor⟩ := band_elim h
          show lookaheadOk (c :: c2 :: (s3 ++ r)) = true
          unfold lookaheadOk
          refine band_intro hc ?_
          rcases bor_elim hor with h1 | h2
          · exact bor_intro (Or.inl h1)
          · refine bor_intro (Or.inr ?_)
            have := digitsThenMarker_append_true (c2 :: s3) r h2
            simpa using this

lemma lookahead_straddle (s tail : List Char) (hne : s ≠ [])
    (htail : tail = [] ∨ tail.head? = some '\n')
    (h : lookaheadOk (s ++ tail) = true) :
    lookaheadOk s = true ∨ s.getLast? = some '\n' := by
  cases s with
  | nil => exact absurd rfl hne
  | cons c s2 =>
      cases s2 with
      | nil =>
          right
          have hc : c = '\n' := by
            have h' : lookaheadOk (c :: tail) = true := by simpa using h
            cases tail with
            | nil => rw [lookaheadOk_singleton] at h'; cases h'
            | cons c2 t2 =>
                unfold lookaheadOk at h'
                exact of_decide_eq_true (band_elim h').1
          rw [hc]; rfl
      | cons c2 s3 =>
          have h' : lookaheadOk (c :: c2 :: (s3 ++ tail)) = true := by simpa using h
          unfold lookaheadOk at h'
          obtain ⟨hc, hor⟩ := band_elim h'
          rcases bor_elim hor with h1 | h2
          · left
            unfold lookaheadOk
            exact band_intro hc (bor_intro (Or.inl h1))
          · have h2' : digitsThenMarker ((c2 :: s3) ++ tail) = true := by simpa using h2
            by_cases hall : (c2 :: s3).dropWhile isPyDigit = []
            · have hadig : ∀ x ∈ c2 :: s3, isPyDigit x = true :=
                List.dropWhile_eq_nil_iff.mp hall
              have hfalse := digitsThenMarker_all_digits (c2 :: s3) tail hadig htail
              rw [hfalse] at h2'; cases h2'
            · have heq := digitsThenMarker_append_stop (c2 :: s3) tail hall
              rw [heq] at h2'
              left
              unfold lookaheadOk
              exact band_intro hc (bor_intro (Or.inr h2'))

/-! ### Inner-stop lemmas -/

lemma hasInnerStop_of_suffix (l s : List Char) (hs : s <:+ l) (hne : s ≠ [])
    (h : lookaheadOk s = true) : hasInnerStop l = true := by
  induction l with
  | nil => exact absurd (List.suffix_nil.mp hs) hne
  | cons c rest ih =>
      rcases List.suffix_cons_iff.mp hs with rfl | hs2
      · simp [hasInnerStop, h]
      · simp [hasInnerStop, ih hs2]

lemma hasInnerStop_exists (l : List Char) (h : hasInnerStop l = true) :
    ∃ s, s ≠ [] ∧ s <:+ l ∧ lookaheadOk s = true := by
  induction l with
  | nil => cases h
  | cons c rest ih =>
      rcases bor_elim (by simpa [hasInnerStop] using h) with h1 | h2
      · exact ⟨c :: rest, by simp, List.suffix_refl _, h1⟩
      · obtain ⟨s, h3, h4, h5⟩ := ih h2
        exact ⟨s, h3, h4.trans (List.suffix_cons c rest), h5⟩

lemma hasInnerStop_false_of_no_suffix (l rem : List Char)
    (hp : ∀ s, s ≠ [] → s <:+ l → lookaheadOk (s ++ rem) = false) :
    hasInnerStop l = false := by
  cases hb : hasInnerStop l with
  | false => rfl
  | true =>
      obtain ⟨s, h1, h2, h3⟩ := hasInnerStop_exists l hb
      have h4 := lookahead_extend s rem h1 h3
      rw [hp s h1 h2] at h4
      cases h4

lemma hasInnerStop_prefix (p l : List Char) (hp : p <+: l)
    (h : hasInnerStop l = false) : hasInnerStop p = false := by
  cases hb : hasInnerStop p with
  | false => rfl
  | true =>
      obtain ⟨s, h1, h2, h3⟩ := hasInnerStop_exists p hb
      obtain ⟨r, hr⟩ := hp
      obtain ⟨t, ht⟩ := h2
      have hs' : s ++ r <:+ l := ⟨t, by rw [← hr, ← ht, List.append_assoc]⟩
      have h4 := lookahead_extend s r h1 h3
      have h5 := hasInnerStop_of_suffix l (s ++ r) hs' (by simp [h1]) h4
      rw [h5] at h
      cases h

/-- Inside stripped, stop-free content followed by a tail that is empty
or starts with a newline, no nonempty suffix position satisfies the
lookahead. -/
lemma content_suffix_lookahead_false (txt tail : List Char)
    (hstop : hasInnerStop txt = false)
    (hlast : txt.getLast? ≠ some '\n')
    (htail : tail = [] ∨ tail.head? = some '\n') :
    ∀ s, s ≠ [] → s <:+ txt → lookaheadOk (s ++ tail) = false := by
  intro s hne hsuf
  cases hb : lookaheadOk (s ++ tail) with
  | false => rfl
  | true =>
      rcases lookahead_straddle s tail hne htail hb with h1 | h2
      · rw [hasInnerStop_of_suffix txt s hsuf hne h1] at hstop
        cases hstop
      · rw [suffix_getLast? s txt hsuf hne, h2] at hlast
        exact absurd rfl hlast

/-! ### Scan lemmas -/

/-- When no interior position of `mid` satisfies the lookahead but the
boundary to `tail` does, the lazy scan consumes exactly `mid`. -/
lemma scanGo_run (mid : List Char) :
    ∀ (tail acc : List Char),
      (∀ s, s ≠ [] → s <:+ mid → lookaheadOk (s ++ tail) = false) →
      lookaheadOk tail = true →
      scanGo acc (mid ++ tail) = (acc.reverse ++ mid, tail) := by
  induction mid with
  | nil =>
      intro tail acc h hl
      cases tail with
      | nil => simp [scanGo]
      | cons c t2 => simp [scanGo, hl]
  | cons c mid2 ih =>
      intro tail acc h hl
      have hfirst : lookaheadOk ((c :: mid2) ++ tail) = false :=
        h (c :: mid2) (by simp) (List.suffix_refl _)
      have hfirst' : lookaheadOk (c :: (mid2 ++ tail)) = false := by
        simpa using hfirst
      show scanGo acc (c :: (mid2 ++ tail)) = _
      unfold scanGo
      rw [if_neg (by simp [hfirst'])]
      rw [ih tail (c :: acc)
            (fun s h1 h2 => h s h1 (h2.trans (List.suffix_cons c mid2))) hl]
      simp [List.reverse_cons, List.append_assoc]

/-- What the lazy scan always produces: the input splits as consumed
content plus a rest satisfying the lookahead, and no nonempty suffix
position of the content satisfied the lookahead. -/
lemma scanGo_sound (l : List Char) :
    ∀ acc : List Char,
      ∃ mid rem, scanGo acc l = (acc.reverse ++ mid, rem) ∧ l = mid ++ rem ∧
        lookaheadOk rem = true ∧
        ∀ s, s ≠ [] → s <:+ mid → lookaheadOk (s ++ rem) = false := by
  induction l with
  | nil =>
      intro acc
      exact ⟨[], [], by simp [scanGo], rfl, rfl,
        fun s h1 h2 => absurd (List.suffix_nil.mp h2) h1⟩
  | cons c l2 ih =>
      intro acc
      by_cases hl : lookaheadOk (c :: l2) = true
      · exact ⟨[], c :: l2, by simp [scanGo, hl], rfl, hl,
          fun s h1 h2 => absurd (List.suffix_nil.mp h2) h1⟩
      · obtain ⟨mid2, rem, h1, h2, h3, h4⟩ := ih (c :: acc)
        have hlf : lookaheadOk (c :: l2) = false := by
          revert hl; cases lookaheadOk (c :: l2) <;> simp
        refine ⟨c :: mid2, rem, ?_, ?_, h3, ?_⟩
        · show scanGo acc (c :: l2) = _
          unfold scanGo
          rw [if_neg (by simp [hlf]), h1]
          simp [List.reverse_cons, List.append_assoc]
        · rw [List.cons_append, ← h2]
        · intro s h5 h6
          rcases List.suffix_cons_iff.mp h6 with rfl | h7
          · rw [List.cons_append, ← h2]
            exact hlf
          · exact h4 s h5 h7

/-! ### Match lemmas -/

/-- The primitive match lemma: digits, marker, whitespace run, then
content whose first character is not whitespace and none of whose later
positions satisfies the lookahead before the tail does.  The lazy scan
stops exactly at the tail and the produced text is the stripped
content. -/
lemma matchAt_scan (numd : List Char) (m : Char) (wsp : List Char)
    (a : Char) (t tail : List Char)
    (hn : numd ≠ []) (hnd : ∀ c ∈ numd, isPyDigit c = true)
    (hm : isMarker m = true)
    (hw : ∀ c ∈ wsp, isPySpace c = true)
    (hha : isPySpace a = false)
    (hsuf : ∀ s, s ≠ [] → s <:+ t → lookaheadOk (s ++ tail) = false)
    (hlook : lookaheadOk tail = true) :
    matchAt (numd ++ m :: (wsp ++ a :: (t ++ tail))) =
      some (⟨String.mk numd, String.mk (pyStrip (a :: t))⟩, tail) := by
  have hmd : isPyDigit m = false := marker_not_digit m hm
  have htw : (numd ++ m :: (wsp ++ a :: (t ++ tail))).takeWhile isPyDigit =
      numd := by
    rw [takeWhile_all_append _ _ _ hnd, takeWhile_cons_neg _ _ _ hmd,
        List.append_nil]
  have hne' : numd.isEmpty = false := by
    cases numd with
    | nil => exact absurd rfl hn
    | cons a2 t2 => rfl
  have hdrop : (numd ++ m :: (wsp ++ a :: (t ++ tail))).drop numd.length =
      m :: (wsp ++ a :: (t ++ tail)) := List.drop_left _ _
  have htw2 : (wsp ++ a :: (t ++ tail)).takeWhile isPySpace = wsp := by
    rw [takeWhile_all_append _ _ _ hw,
        takeWhile_cons_neg _ _ _ hha, List.append_nil]
  have hdrop2 : (wsp ++ a :: (t ++ tail)).drop wsp.length =
      a :: (t ++ tail) := List.drop_left _ _
  have hscan : scanGo [a] (t ++ tail) = ([a].reverse ++ t, tail) :=
    scanGo_run t tail [a] hsuf hlook
  have hscan' : scanGo [a] (t ++ tail) = (a :: t, tail) := by
    simpa using hscan
  unfold matchAt
  simp only [htw, hne', Bool.false_eq_true, if_false, hdrop, hm, if_true, htw2,
    hdrop2, List.cons_append, hscan']

/-- A full task line — digits, marker, whitespace run, stripped nonempty
stop-free content — followed by a lookahead-satisfying tail matches
exactly, consuming the line and leaving the tail. -/
lemma matchAt_format (numd : List Char) (m : Char) (wsp txt tail : List Char)
    (hn : numd ≠ []) (hnd : ∀ c ∈ numd, isPyDigit c = true)
    (hm : isMarker m = true)
    (hw : ∀ c ∈ wsp, isPySpace c = true)
    (ht : txt ≠ [])
    (hstrip : pyStrip txt = txt)
    (hstop : hasInnerStop txt = false)
    (htail : tail = [] ∨ tail.head? = some '\n')
    (hlook : lookaheadOk tail = true) :
    matchAt (numd ++ m :: (wsp ++ (txt ++ tail))) =
      some (⟨String.mk numd, String.mk txt⟩, tail) := by
  obtain ⟨a, t, rfl⟩ := List.exists_cons_of_ne_nil ht
  have hha : isPySpace a = false := by
    have hends := (pyStrip_ends (a :: t)).1
    rw [hstrip] at hends
    exact hends a rfl
  have hlastnn : (a :: t).getLast? ≠ some '\n' := by
    intro heq
    have hends := (pyStrip_ends (a :: t)).2
    rw [hstrip] at hends
    have := hends '\n' heq
    rw [show isPySpace '\n' = true by decide] at this
    cases this
  have hg := matchAt_scan numd m wsp a t tail hn hnd hm hw hha
    (fun s h1 h2 =>
      content_suffix_lookahead_false (a :: t) tail hstop hlastnn htail s h1
        (h2.trans (List.suffix_cons a t)))
    hlook
  rw [hstrip] at hg
  simpa using hg

/-- A task line whose content was entirely whitespace: the whitespace run
reaches the end of the input, the engine backtracks one character, and
the task text strips to the empty string. -/
lemma matchAt_format_empty (numd : List Char) (m : Char) (wsp : List Char)
    (hn : numd ≠ []) (hnd : ∀ c ∈ numd, isPyDigit c = true)
    (hm : isMarker m = true)
    (hw : ∀ c ∈ wsp, isPySpace c = true)
    (hwne : wsp ≠ []) :
    matchAt (numd ++ m :: wsp) = some (⟨String.mk numd, ""⟩, []) := by
  have hmd : isPyDigit m = false := marker_not_digit m hm
  have htw : (numd ++ m :: wsp).takeWhile isPyDigit = numd := by
    rw [takeWhile_all_append _ _ _ hnd, takeWhile_cons_neg _ _ _ hmd,
        List.append_nil]
  have hne' : numd.isEmpty = false := by
    cases numd with
    | nil => exact absurd rfl hn
    | cons a2 t2 => rfl
  have hdrop : (numd ++ m :: wsp).drop numd.length = m :: wsp :=
    List.drop_left _ _
  have htw2 : wsp.takeWhile isPySpace = wsp :=
    List.takeWhile_eq_self_iff.mpr hw
  have hwe : wsp.isEmpty = false := by
    cases wsp with
    | nil => exact absurd rfl hwne
    | cons a2 t2 => rfl
  unfold matchAt
  simp only [htw, hne', Bool.false_eq_true, if_false, hdrop, hm, if_true, htw2,
    List.drop_length, hwe]

lemma lookahead_head_ne (c : Char) (r : List Char) (hc : c ≠ '\n') :
    lookaheadOk (c :: r) = false := by
  unfold lookaheadOk
  simp [hc]

lemma mk_ne_empty (l : List Char) (h : l ≠ []) : String.mk l ≠ "" := by
  intro heq
  have := congrArg String.data heq
  exact h (by simpa using this)

/-- Every match produces a task satisfying the shape invariant, and a
match that leaves input behind has nonempty text. -/
lemma matchAt_inv (cs : List Char) (tk : TaskItem) (rem : List Char)
    (h : matchAt cs = some (tk, rem)) :
    taskInv tk ∧ (rem ≠ [] → tk.text ≠ "") := by
  unfold matchAt at h
  by_cases h1 : (cs.takeWhile isPyDigit).isEmpty = true
  · simp [h1] at h
  · have h1' : (cs.takeWhile isPyDigit).isEmpty = false := by
      revert h1; cases (cs.takeWhile isPyDigit).isEmpty <;> simp
    have hdne : cs.takeWhile isPyDigit ≠ [] := by
      intro hh; rw [hh] at h1'; cases h1'
    have hdig : ∀ c ∈ cs.takeWhile isPyDigit, isPyDigit c = true :=
      fun c hc => List.mem_takeWhile_imp hc
    simp only [h1', Bool.false_eq_true, if_false] at h
    cases h2 : cs.drop (cs.takeWhile isPyDigit).length with
    | nil => rw [h2] at h; simp at h
    | cons m rest =>
        rw [h2] at h
        by_cases h3 : isMarker m = true
        · simp only [h3, if_true] at h
          cases h4 : rest.drop (rest.takeWhile isPySpace).length with
          | nil =>
              rw [h4] at h
              by_cases h5 : (rest.takeWhile isPySpace).isEmpty = true
              · simp [h5] at h
              · have h5' : (rest.takeWhile isPySpace).isEmpty = false := by
                  revert h5; cases (rest.takeWhile isPySpace).isEmpty <;> simp
                simp only [h5', Bool.false_eq_true, if_false,
                  Option.some.injEq] at h
                injection h with htk hrem
                refine ⟨?_, ?_⟩
                · rw [← htk]
                  exact ⟨hdne, hdig, rfl, rfl⟩
                · intro hremne
                  rw [← hrem] at hremne
                  exact absurd rfl hremne
          | cons a after =>
              rw [h4] at h
              obtain ⟨mid, rem2, hsg, hsplit, hlookr, hsuff⟩ :=
                scanGo_sound after [a]
              have hsg' : scanGo [a] after = (a :: mid, rem2) := by
                simpa using hsg
              simp only [hsg', Option.some.injEq] at h
              injection h with htk hrem
              have hha : isPySpace a = false := by
                rw [drop_takeWhile_length] at h4
                exact dropWhile_head_not _ _ _ _ h4
              have hanl : a ≠ '\n' := by
                intro hh
                rw [hh] at hha
                rw [show isPySpace '\n' = true by decide] at hha
                cases hha
              have hmidstop : hasInnerStop mid = false :=
                hasInnerStop_false_of_no_suffix mid rem2 hsuff
              have hcontstop : hasInnerStop (a :: mid) = false := by
                show (lookaheadOk (a :: mid) || hasInnerStop mid) = false
                rw [lookahead_head_ne a mid hanl, hmidstop]
                rfl
              have hprefix := pyStrip_prefix_of_head a mid hha
              refine ⟨?_, ?_⟩
              · rw [← htk]
                exact ⟨hdne, hdig, pyStrip_idem _,
                  hasInnerStop_prefix _ _ hprefix.1 hcontstop⟩
              · intro _
                rw [← htk]
                exact mk_ne_empty _ hprefix.2
        · simp [h3] at h

/-! ### Driver lemmas -/

lemma parseGo_nil (f : Nat) (st : Bool) : parseGo f [] st = [] := by
  cases f <;> rfl

lemma matchAt_nil : matchAt [] = Option.none := rfl

lemma parseGo_step (f : Nat) (cs : List Char) (tk : TaskItem) (rem : List Char)
    (h : matchAt cs = some (tk, rem)) :
    parseGo (f + 1) cs true = tk :: parseGo f rem false := by
  cases cs with
  | nil => rw [matchAt_nil] at h; cases h
  | cons c rest => simp [parseGo, h]

lemma parseGo_skip_newline (f : Nat) (cs : List Char) :
    parseGo (f + 1) ('\n' :: cs) false = parseGo f cs true := by
  simp [parseGo]

lemma parseGo_no_newline (cs : List Char) (h : '\n' ∉ cs) :
    ∀ f, parseGo f cs false = [] := by
  induction cs with
  | nil => intro f; exact parseGo_nil f false
  | cons c rest ih =>
      intro f
      cases f with
      | zero => rfl
      | succ f2 =>
          have hc : decide (c = '\n') = false :=
            decide_eq_false (fun hh => h (by rw [hh]; exact List.mem_cons_self _ _))
          show parseGo (f2 + 1) (c :: rest) false = []
          simp only [parseGo, Bool.false_eq_true, if_false, hc]
          exact ih (fun hm => h (List.mem_cons_of_mem c hm)) f2

/-- Every list of tasks produced by the driver satisfies the invariant. -/
lemma parseGo_inv (f : Nat) : ∀ (cs : List Char) (st : Bool),
    tasksInv (parseGo f cs st) := by
  induction f with
  | zero => intro cs st; exact trivial
  | succ f2 ih =>
      intro cs st
      cases cs with
      | nil =>
          rw [parseGo_nil]
          exact trivial
      | cons c rest =>
          cases st with
          | false =>
              have hgoal : parseGo (f2 + 1) (c :: rest) false =
                  parseGo f2 rest (decide (c = '\n')) := by
                simp [parseGo]
              rw [hgoal]
              exact ih rest _
          | true =>
              cases hm : matchAt (c :: rest) with
              | none =>
                  have hgoal : parseGo (f2 + 1) (c :: rest) true =
                      parseGo f2 rest (decide (c = '\n')) := by
                    simp [parseGo, hm]
                  rw [hgoal]
                  exact ih rest _
              | some pr =>
                  obtain ⟨tk, rem⟩ := pr
                  rw [parseGo_step f2 _ tk rem hm]
                  obtain ⟨hti, htxt⟩ := matchAt_inv _ _ _ hm
                  cases hpr : parseGo f2 rem false with
                  | nil => exact hti
                  | cons u L =>
                      refine ⟨hti, ?_, ?_⟩
                      · apply htxt
                        intro hremnil
                        rw [hremnil, parseGo_nil] at hpr
                        cases hpr
                      · rw [← hpr]
                        exact ih rem false

/-! ### Re-parsing the joined tasks -/

lemma formatTask_data (t : TaskItem) :
    (formatTask t).data = t.num.data ++ '.' :: ' ' :: t.text.data := by
  show (t.num ++ ". " ++ t.text).data = _
  rw [String.data_append, String.data_append]
  simp [List.append_assoc]

lemma joinTasks_cons_data (t u : TaskItem) (ts : List TaskItem) :
    (joinTasks (t :: u :: ts)).data =
      t.num.data ++ '.' :: ' ' :: (t.text.data ++ '\n' :: (joinTasks (u :: ts)).data) := by
  show (formatTask t ++ "\n" ++ joinTasks (u :: ts)).data = _
  rw [String.data_append, String.data_append, formatTask_data]
  simp [List.append_assoc]

lemma tasksInv_head (t : TaskItem) (ts : List TaskItem)
    (h : tasksInv (t :: ts)) : taskInv t := by
  cases ts with
  | nil => exact h
  | cons u L => exact h.1

/-- A newline followed by the joined form of a further task satisfies
the lookahead (the next line starts with digits and a dot). -/
lemma lookahead_join (u : TaskItem) (ts : List TaskItem)
    (hn : u.num.data ≠ []) (hnd : ∀ c ∈ u.num.data, isPyDigit c = true) :
    lookaheadOk ('\n' :: (joinTasks (u :: ts)).data) = true := by
  obtain ⟨R, hR⟩ : ∃ R, (joinTasks (u :: ts)).data = u.num.data ++ '.' :: R := by
    cases ts with
    | nil => exact ⟨' ' :: u.text.data, formatTask_data u⟩
    | cons v L =>
        exact ⟨' ' :: (u.text.data ++ '\n' :: (joinTasks (v :: L)).data),
          joinTasks_cons_data u v L⟩
  rw [hR]
  have hdtm : digitsThenMarker (u.num.data ++ '.' :: R) = true := by
    unfold digitsThenMarker
    have htw : (u.num.data ++ '.' :: R).takeWhile isPyDigit = u.num.data := by
      rw [takeWhile_all_append _ _ _ hnd,
          takeWhile_cons_neg _ _ _ (by decide), List.append_nil]
    rw [htw, List.drop_left]
    apply band_intro
    · cases hde : u.num.data with
      | nil => exact absurd hde hn
      | cons a2 t2 => rfl
    · show isMarker '.' = true
      decide
  show (decide ('\n' = '\n') &&
      ((match u.num.data ++ '.' :: R with
        | c2 :: _ => decide (c2 = '\n')
        | [] => false) || digitsThenMarker (u.num.data ++ '.' :: R))) = true
  rw [hdtm]
  simp

/-- Re-parsing the joined form of an invariant-satisfying task list
recovers exactly that list. -/
lemma parseGo_join (ts : List TaskItem) :
    tasksInv ts → ∀ fuel, (joinTasks ts).data.length < fuel →
      parseGo fuel (joinTasks ts).data true = ts := by
  induction ts with
  | nil =>
      intro _ fuel _
      exact parseGo_nil fuel true
  | cons t rest ih =>
      intro hinv fuel hfuel
      cases rest with
      | nil =>
          have hti : taskInv t := hinv
          obtain ⟨hn, hnd, hstrip, hstop⟩ := hti
          have hdata : (joinTasks [t]).data =
              t.num.data ++ '.' :: ' ' :: t.text.data := formatTask_data t
          have hwall : ∀ c ∈ [' '], isPySpace c = true := by
            intro c hc
            rw [List.mem_singleton.mp hc]
            decide
          by_cases htxt : t.text.data = []
          · have hmatch : matchAt ((joinTasks [t]).data) =
                some (⟨String.mk t.num.data, ""⟩, []) := by
              rw [hdata, htxt]
              exact matchAt_format_empty t.num.data '.' [' '] hn hnd
                (by decide) hwall (by simp)
            have hmk : (⟨String.mk t.num.data, ""⟩ : TaskItem) = t := by
              have h2 : t.text = "" := by
                have := congrArg String.mk htxt
                simpa using this
              rw [← h2]
            cases fuel with
            | zero => omega
            | succ f2 =>
                rw [parseGo_step f2 _ _ _ hmatch, hmk, parseGo_nil]
          · have hmatch : matchAt ((joinTasks [t]).data) =
                some (⟨String.mk t.num.data, String.mk t.text.data⟩, []) := by
              rw [hdata]
              have hg := matchAt_format t.num.data '.' [' '] t.text.data []
                hn hnd (by decide) hwall htxt hstrip hstop (Or.inl rfl) rfl
              simpa using hg
            have hmk : (⟨String.mk t.num.data, String.mk t.text.data⟩ : TaskItem) = t := by
              rfl
            cases fuel with
            | zero => omega
            | succ f2 =>
                rw [parseGo_step f2 _ _ _ hmatch, hmk, parseGo_nil]
      | cons u rest2 =>
          obtain ⟨hti, htne, hinv2⟩ := hinv
          obtain ⟨hn, hnd, hstrip, hstop⟩ := hti
          have hu : taskInv u := tasksInv_head u rest2 hinv2
          have hdata := joinTasks_cons_data t u rest2
          have hwall : ∀ c ∈ [' '], isPySpace c = true := by
            intro c hc
            rw [List.mem_singleton.mp hc]
            decide
          have htxtne : t.text.data ≠ [] := by
            intro hh
            apply htne
            have := congrArg String.mk hh
            simpa using this
          have hlookj : lookaheadOk ('\n' :: (joinTasks (u :: rest2)).data) = true :=
            lookahead_join u rest2 hu.1 hu.2.1
          have hmatch : matchAt ((joinTasks (t :: u :: rest2)).data) =
              some (⟨String.mk t.num.data, String.mk t.text.data⟩,
                '\n' :: (joinTasks (u :: rest2)).data) := by
            rw [hdata]
            have hg := matchAt_format t.num.data '.' [' '] t.text.data
              ('\n' :: (joinTasks (u :: rest2)).data)
              hn hnd (by decide) hwall htxtne hstrip hstop
              (Or.inr rfl) hlookj
            simpa [List.append_assoc] using hg
          have hmk : (⟨String.mk t.num.data, String.mk t.text.data⟩ : TaskItem) = t := by
            rfl
          have hlen : (joinTasks (t :: u :: rest2)).data.length =
              t.num.data.length + 3 + t.text.data.length +
                (joinTasks (u :: rest2)).data.length := by
            rw [hdata]
            simp [List.length_append]
            omega
          have hnum1 : 1 ≤ t.num.data.length := List.length_pos.mpr hn
          have htxt1 : 1 ≤ t.text.data.length := List.length_pos.mpr htxtne
          cases fuel with
          | zero => omega
          | succ f2 =>
              rw [parseGo_step f2 _ _ _ hmatch, hmk]
              cases f2 with
              | zero => omega
              | succ f3 =>
                  rw [parseGo_skip_newline f3 _]
                  rw [ih hinv2 f3 (by omega)]

/-- C3: `parse_tasks` is idempotent on its own output — re-joining the
parsed tasks as "num. text" lines separated by newlines and parsing the
result again yields the very same list of task pairs (and hence the same
set of number/text pairs) as the first parse. -/
theorem parse_tasks_idempotent (text : String) :
    parse_tasks (joinTasks (parse_tasks text)) = parse_tasks text := by
  have hinv : tasksInv (parse_tasks text) := parseGo_inv _ _ _
  show parseGo ((joinTasks (parse_tasks text)).data.length + 1)
      (joinTasks (parse_tasks text)).data true = parse_tasks text
  exact parseGo_join (parse_tasks text) hinv _ (Nat.lt_succ_self _)

/-- C7 counterexample: a numbered item whose digits are preceded by
spaces on its line is not extracted at all, while the unindented form
is — so indentation is not tolerated by the pattern, whose `^(\d+)`
start has no optional-whitespace allowance. -/
theorem parse_tasks_indent_counterexample :
    parse_tasks "  1. Task" = [] ∧
    parse_tasks "1. Task" = [⟨"1", "Task"⟩] := by
  exact ⟨rfl, rfl⟩

/-! ### Multi-line parsing lemmas for the amended line-shape claim -/

lemma matchAt_no_digit (c : Char) (xs : List Char) (h : isPyDigit c = false) :
    matchAt (c :: xs) = Option.none := by
  unfold matchAt
  rw [takeWhile_cons_neg _ _ _ h]
  rfl

lemma parseGo_newline_start (g : Nat) (xs : List Char) :
    parseGo (g + 1) ('\n' :: xs) true = parseGo g xs true := by
  have hnone := matchAt_no_digit '\n' xs (by decide)
  simp [parseGo, hnone]

lemma lookahead_blank (xs : List Char) :
    lookaheadOk ('\n' :: '\n' :: xs) = true := by
  show (decide ('\n' = '\n') &&
      (decide ('\n' = '\n') || digitsThenMarker ('\n' :: xs))) = true
  simp

/-- A newline followed by digits and any of the three markers satisfies
the lookahead. -/
lemma lookahead_numline (numd2 : List Char) (m2 : Char) (R : List Char)
    (hn : numd2 ≠ []) (hnd : ∀ c ∈ numd2, isPyDigit c = true)
    (hm : isMarker m2 = true) :
    lookaheadOk ('\n' :: (numd2 ++ m2 :: R)) = true := by
  have hdtm : digitsThenMarker (numd2 ++ m2 :: R) = true := by
    unfold digitsThenMarker
    have htw : (numd2 ++ m2 :: R).takeWhile isPyDigit = numd2 := by
      rw [takeWhile_all_append _ _ _ hnd,
          takeWhile_cons_neg _ _ _ (marker_not_digit m2 hm), List.append_nil]
    rw [htw, List.drop_left]
    apply band_intro
    · cases hde : numd2 with
      | nil => exact absurd hde hn
      | cons a2 t2 => rfl
    · exact hm
  show (decide ('\n' = '\n') &&
      ((match numd2 ++ m2 :: R with
        | c2 :: _ => decide (c2 = '\n')
        | [] => false) || digitsThenMarker (numd2 ++ m2 :: R))) = true
  rw [hdtm]
  simp

/-- The joined form of a block of lines always starts with the first
line's digits and marker. -/
lemma joinLines_shape (L2 : TaskLine) (rest2 : List (Bool × TaskLine)) :
    ∃ R, joinLines L2 rest2 = L2.numd ++ L2.mark :: R := by
  cases rest2 with
  | nil => exact ⟨L2.wsp ++ L2.txt, rfl⟩
  | cons p rest3 =>
      obtain ⟨b, L3⟩ := p
      refine ⟨(L2.wsp ++ L2.txt) ++
        ((if b then ['\n', '\n'] else ['\n']) ++ joinLines L3 rest3), ?_⟩
      simp [joinLines, lineData, List.append_assoc]

lemma suffix_append_split (s A B : List Char) (h : s <:+ A ++ B) :
    s <:+ B ∨ ∃ t, t ≠ [] ∧ t <:+ A ∧ s = t ++ B := by
  induction A with
  | nil => left; simpa using h
  | cons a A2 ihA =>
      have h2 : s <:+ a :: (A2 ++ B) := by simpa using h
      rcases List.suffix_cons_iff.mp h2 with rfl | h3
      · right
        exact ⟨a :: A2, by simp, List.suffix_refl _, by simp⟩
      · rcases ihA h3 with h4 | ⟨t, h5, h6, h7⟩
        · left; exact h4
        · right; exact ⟨t, h5, h6.trans (List.suffix_cons a A2), h7⟩

/-- No position inside stripped, stop-free content followed by a newline
and an indented newline-free line satisfies the lookahead: the lazy
scan absorbs the whole indented line. -/
lemma indent_tail_lookahead_false (txt ind : List Char)
    (hstop : hasInnerStop txt = false)
    (hlast : txt.getLast? ≠ some '\n')
    (hind : ∃ c, ind.head? = some c ∧ (c = ' ' ∨ c = '\t'))
    (hnl : '\n' ∉ ind) :
    ∀ s, s ≠ [] → s <:+ txt ++ '\n' :: ind → lookaheadOk s = false := by
  intro s hne hsuf
  rcases suffix_append_split s txt ('\n' :: ind) hsuf with h1 | ⟨t, h2, h3, rfl⟩
  · rcases List.suffix_cons_iff.mp h1 with rfl | h4
    · obtain ⟨c, hc, hcw⟩ := hind
      cases hd : ind with
      | nil => exact lookaheadOk_singleton '\n'
      | cons c2 ind2 =>
          rw [hd] at hc
          have hc2 : c2 = c := by injection hc
          subst hc2
          have hd1 : decide (c2 = '\n') = false :=
            decide_eq_false (by rcases hcw with rfl | rfl <;> decide)
          have hd2 : digitsThenMarker (c2 :: ind2) = false := by
            unfold digitsThenMarker
            rw [takeWhile_cons_neg _ _ _
              (by rcases hcw with rfl | rfl <;> decide : isPyDigit c2 = false)]
            rfl
          show (decide ('\n' = '\n') &&
              (decide (c2 = '\n') || digitsThenMarker (c2 :: ind2))) = false
          rw [hd1, hd2]
          rfl
    · cases s with
      | nil => exact absurd rfl hne
      | cons c2 s2 =>
          have hmem : c2 ∈ ind := h4.subset (List.mem_cons_self _ _)
          exact lookahead_head_ne c2 s2 (fun hh => hnl (hh ▸ hmem))
  · exact content_suffix_lookahead_false txt ('\n' :: ind) hstop hlast
      (Or.inr rfl) t h2 h3

/-- Re-parsing a block of well-formed task lines, with each pair of
consecutive lines separated either by a single newline or by a blank
line, yields exactly those lines' tasks: the content of every line stops
at the next numbered-line start, at the blank line, or at the end of the
input. -/
lemma parseGo_joinLines (rest : List (Bool × TaskLine)) :
    ∀ (L : TaskLine), lineOk L → (∀ p ∈ rest, lineOk p.2) →
      ∀ fuel, (joinLines L rest).length < fuel →
      parseGo fuel (joinLines L rest) true =
        ⟨String.mk L.numd, String.mk L.txt⟩ ::
          rest.map (fun p => ⟨String.mk p.2.numd, String.mk p.2.txt⟩) := by
  induction rest with
  | nil =>
      intro L hL _ fuel hfuel
      obtain ⟨hn, hnd, hm, hw, ht, hstrip, hstop⟩ := hL
      have hmatch : matchAt (joinLines L []) =
          some (⟨String.mk L.numd, String.mk L.txt⟩, []) := by
        show matchAt (lineData L) = _
        have hg := matchAt_format L.numd L.mark L.wsp L.txt [] hn hnd hm hw ht
          hstrip hstop (Or.inl rfl) rfl
        simpa [lineData] using hg
      cases fuel with
      | zero => omega
      | succ f2 =>
          rw [parseGo_step f2 _ _ _ hmatch, parseGo_nil]
          rfl
  | cons p rest2 ih =>
      obtain ⟨blank, L2⟩ := p
      intro L hL hrest fuel hfuel
      obtain ⟨hn, hnd, hm, hw, ht, hstrip, hstop⟩ := hL
      have hL2 : lineOk L2 := hrest (blank, L2) (List.mem_cons_self _ _)
      have hrest2 : ∀ q ∈ rest2, lineOk q.2 :=
        fun q hq => hrest q (List.mem_cons_of_mem _ hq)
      obtain ⟨R, hR⟩ := joinLines_shape L2 rest2
      have hlookJ : lookaheadOk ('\n' :: joinLines L2 rest2) = true := by
        rw [hR]
        exact lookahead_numline L2.numd L2.mark R hL2.1 hL2.2.1 hL2.2.2.1
      have hlenL : 2 ≤ (lineData L).length := by
        have h1 : 1 ≤ L.numd.length := List.length_pos.mpr hn
        simp [lineData, List.length_append]
        omega
      cases blank with
      | false =>
          have hdata : joinLines L ((false, L2) :: rest2) =
              L.numd ++ L.mark ::
                (L.wsp ++ (L.txt ++ ('\n' :: joinLines L2 rest2))) := by
            simp [joinLines, lineData, List.append_assoc]
          have htot : (joinLines L ((false, L2) :: rest2)).length =
              (lineData L).length + 1 + (joinLines L2 rest2).length := by
            simp [joinLines, List.length_append]
            omega
          have hmatch : matchAt (joinLines L ((false, L2) :: rest2)) =
              some (⟨String.mk L.numd, String.mk L.txt⟩,
                '\n' :: joinLines L2 rest2) := by
            rw [hdata]
            exact matchAt_format L.numd L.mark L.wsp L.txt
              ('\n' :: joinLines L2 rest2) hn hnd hm hw ht hstrip hstop
              (Or.inr rfl) hlookJ
          cases fuel with
          | zero => omega
          | succ f2 =>
              rw [parseGo_step f2 _ _ _ hmatch]
              cases f2 with
              | zero => omega
              | succ f3 =>
                  rw [parseGo_skip_newline f3 _]
                  rw [ih L2 hL2 hrest2 f3 (by omega)]
                  rfl
      | true =>
          have hdata : joinLines L ((true, L2) :: rest2) =
              L.numd ++ L.mark ::
                (L.wsp ++ (L.txt ++ ('\n' :: '\n' :: joinLines L2 rest2))) := by
            simp [joinLines, lineData, List.append_assoc]
          have htot : (joinLines L ((true, L2) :: rest2)).length =
              (lineData L).length + 2 + (joinLines L2 rest2).length := by
            simp [joinLines, List.length_append]
            omega
          have hmatch : matchAt (joinLines L ((true, L2) :: rest2)) =
              some (⟨String.mk L.numd, String.mk L.txt⟩,
                '\n' :: '\n' :: joinLines L2 rest2) := by
            rw [hdata]
            exact matchAt_format L.numd L.mark L.wsp L.txt
              ('\n' :: '\n' :: joinLines L2 rest2) hn hnd hm hw ht hstrip hstop
              (Or.inr rfl) (lookahead_blank _)
          cases fuel with
          | zero => omega
          | succ f2 =>
              rw [parseGo_step f2 _ _ _ hmatch]
              cases f2 with
              | zero => omega
              | succ f3 =>
                  rw [parseGo_skip_newline f3 _]
                  cases f3 with
                  | zero => omega
                  | succ f4 =>
                      rw [parseGo_newline_start f4 _]
                      rw [ih L2 hL2 hrest2 f4 (by omega)]
                      rfl

/-- Scanning a newline-free segment from a non-line-start position up to
and over the next newline produces no task and resumes at a line
start. -/
lemma parseGo_skip_to_newline (seg : List Char) :
    '\n' ∉ seg → ∀ (f : Nat) (cont : List Char),
      parseGo (f + (seg.length + 1)) (seg ++ '\n' :: cont) false =
        parseGo f cont true := by
  induction seg with
  | nil =>
      intro _ f cont
      exact parseGo_skip_newline f cont
  | cons c seg2 ih =>
      intro h f cont
      have hc : decide (c = '\n') = false :=
        decide_eq_false (fun hh => h (by rw [hh]; exact List.mem_cons_self _ _))
      show parseGo ((f + (seg2.length + 1)) + 1)
          (c :: (seg2 ++ '\n' :: cont)) false = parseGo f cont true
      have hstep : parseGo ((f + (seg2.length + 1)) + 1)
          (c :: (seg2 ++ '\n' :: cont)) false =
            parseGo (f + (seg2.length + 1)) (seg2 ++ '\n' :: cont)
              (decide (c = '\n')) := by
        simp [parseGo]
      rw [hstep, hc]
      exact ih (fun hm => h (List.mem_cons_of_mem c hm)) f cont

/-- C7 amended, at multi-line generality.  (1) Every text consisting of
well-formed task lines — digits at the very start of each line (no
leading whitespace permitted), one of `.`, `)` or `-`, optional
whitespace, and stripped stop-free content — with consecutive lines
separated by a single newline or by a blank line, parses to exactly
those lines' tasks with verbatim numbers: each line's content stops at
the next numbered-line start, at the blank line, or at the end of the
input.  (2) An indented line (spaces or tabs before any digits, no
newline inside) at the head of any text contributes no task: the parse
equals the parse of what follows its newline.  (3) An indented numbered
item on the line after a well-formed task line is not extracted either —
its characters are absorbed into the previous task's content.  (4) A
whitespace-headed text without any newline yields no tasks at all. -/
theorem parse_tasks_line_shape_amended :
    (∀ (L : TaskLine) (rest : List (Bool × TaskLine)),
       lineOk L → (∀ p ∈ rest, lineOk p.2) →
       parse_tasks (String.mk (joinLines L rest)) =
         ⟨String.mk L.numd, String.mk L.txt⟩ ::
           rest.map (fun p => ⟨String.mk p.2.numd, String.mk p.2.txt⟩)) ∧
    (∀ (ind cont : List Char),
       (∃ c, ind.head? = some c ∧ (c = ' ' ∨ c = '\t')) →
       '\n' ∉ ind →
       parse_tasks (String.mk (ind ++ '\n' :: cont)) =
         parse_tasks (String.mk cont)) ∧
    (∀ (L : TaskLine) (ind : List Char), lineOk L →
       (∃ c, ind.head? = some c ∧ (c = ' ' ∨ c = '\t')) →
       '\n' ∉ ind →
       parse_tasks (String.mk (lineData L ++ '\n' :: ind)) =
         [⟨String.mk L.numd, String.mk (pyStrip (L.txt ++ '\n' :: ind))⟩]) ∧
    (∀ s : String,
       (∃ c, s.data.head? = some c ∧ (c = ' ' ∨ c = '\t')) →
       '\n' ∉ s.data → parse_tasks s = []) := by
  refine ⟨?_, ?_, ?_, ?_⟩
  · intro L rest hL hrest
    show parseGo ((joinLines L rest).length + 1) (joinLines L rest) true = _
    exact parseGo_joinLines rest L hL hrest _ (Nat.lt_succ_self _)
  · intro ind cont hhead hnl
    obtain ⟨c, hc, hcw⟩ := hhead
    cases hd : ind with
    | nil => rw [hd] at hc; cases hc
    | cons c0 ind2 =>
        subst hd
        have hc0 : c0 = c := by injection hc
        subst hc0
        have hnodig := matchAt_no_digit c0 (ind2 ++ '\n' :: cont)
          (by rcases hcw with rfl | rfl <;> decide)
        have hcnl : decide (c0 = '\n') = false :=
          decide_eq_false (by rcases hcw with rfl | rfl <;> decide)
        show parseGo ((ind2 ++ '\n' :: cont).length + 1 + 1)
            (c0 :: (ind2 ++ '\n' :: cont)) true = parse_tasks (String.mk cont)
        have hstep : parseGo ((ind2 ++ '\n' :: cont).length + 1 + 1)
            (c0 :: (ind2 ++ '\n' :: cont)) true =
              parseGo ((ind2 ++ '\n' :: cont).length + 1)
                (ind2 ++ '\n' :: cont) (decide (c0 = '\n')) := by
          simp [parseGo, hnodig]
        rw [hstep, hcnl]
        have harith : (ind2 ++ '\n' :: cont).length + 1 =
            (cont.length + 1) + (ind2.length + 1) := by
          simp [List.length_append]
          omega
        rw [harith]
        rw [parseGo_skip_to_newline ind2
          (fun hm => hnl (List.mem_cons_of_mem c0 hm)) (cont.length + 1) cont]
        rfl
  · intro L ind hL hhead hnl
    obtain ⟨numd, mark, wsp, txt⟩ := L
    obtain ⟨hn, hnd, hm, hw, ht, hstrip, hstop⟩ := hL
    obtain ⟨a, t0, rfl⟩ := List.exists_cons_of_ne_nil ht
    have hha : isPySpace a = false := by
      have hends := (pyStrip_ends (a :: t0)).1
      rw [hstrip] at hends
      exact hends a rfl
    have hlastnn : (a :: t0).getLast? ≠ some '\n' := by
      intro heq
      have hends := (pyStrip_ends (a :: t0)).2
      rw [hstrip] at hends
      have := hends '\n' heq
      rw [show isPySpace '\n' = true by decide] at this
      cases this
    have hsuf : ∀ s, s ≠ [] → s <:+ t0 ++ '\n' :: ind →
        lookaheadOk (s ++ ([] : List Char)) = false := by
      intro s h1 h2
      rw [List.append_nil]
      exact indent_tail_lookahead_false (a :: t0) ind hstop hlastnn hhead hnl
        s h1 (h2.trans (List.suffix_cons a (t0 ++ '\n' :: ind)))
    have hmatch : matchAt (numd ++ mark :: (wsp ++ a :: (t0 ++ '\n' :: ind))) =
        some (⟨String.mk numd, String.mk (pyStrip (a :: (t0 ++ '\n' :: ind)))⟩,
          []) := by
      have hg := matchAt_scan numd mark wsp a (t0 ++ '\n' :: ind) [] hn hnd hm
        hw hha hsuf rfl
      simpa using hg
    have hYeq : lineData ⟨numd, mark, wsp, a :: t0⟩ ++ '\n' :: ind =
        numd ++ mark :: (wsp ++ a :: (t0 ++ '\n' :: ind)) := by
      simp [lineData, List.append_assoc]
    rw [hYeq]
    show parseGo ((numd ++ mark :: (wsp ++ a :: (t0 ++ '\n' :: ind))).length + 1)
        (numd ++ mark :: (wsp ++ a :: (t0 ++ '\n' :: ind))) true = _
    rw [parseGo_step _ _ _ _ hmatch, parseGo_nil]
    rfl
  · intro s hhead hnl
    obtain ⟨c, hc, hcw⟩ := hhead
    cases hsd : s.data with
    | nil => rw [hsd] at hc; cases hc
    | cons c0 rest =>
        rw [hsd] at hc
        have hc0 : c0 = c := by injection hc
        subst hc0
        rw [hsd] at hnl
        have hnodig : matchAt (c0 :: rest) = Option.none := by
          unfold matchAt
          have htw : (c0 :: rest).takeWhile isPyDigit = [] := by
            apply takeWhile_cons_neg
            rcases hcw with rfl | rfl <;> decide
          rw [htw]
          rfl
        have hcnl : decide (c0 = '\n') = false := by
          apply decide_eq_false
          rcases hcw with rfl | rfl <;> decide
        show parseGo (s.data.length + 1) s.data true = []
        rw [hsd]
        have hstep : parseGo ((c0 :: rest).length + 1) (c0 :: rest) true =
            parseGo ((c0 :: rest).length) rest (decide (c0 = '\n')) := by
          simp [parseGo, hnodig]
        rw [hstep, hcnl]
        exact parseGo_no_newline rest
          (fun hm => hnl (List.mem_cons_of_mem c0 hm)) _

/-- Witness for the amended C7, at concrete multi-line inputs: a
blank-line-separated two-line plan with two different markers parses to
both tasks; an indented numbered line before a real task line
contributes nothing; an indented numbered line after a task line is
absorbed into the previous content instead of being extracted; an
indented single-line text yields no tasks. -/
theorem parse_tasks_line_shape_amended_witness :
    parse_tasks "1) Alpha\n\n2. Beta" = [⟨"1", "Alpha"⟩, ⟨"2", "Beta"⟩] ∧
    parse_tasks "  1. Task\n2. Real" = parse_tasks "2. Real" ∧
    parse_tasks "1. Alpha\n  2. Hidden" = [⟨"1", "Alpha\n  2. Hidden"⟩] ∧
    parse_tasks "  1. Task" = [] := by
  refine ⟨?_, ?_, ?_, ?_⟩
  · exact parse_tasks_line_shape_amended.1
      ⟨['1'], ')', [' '], "Alpha".data⟩
      [(true, ⟨['2'], '.', [' '], "Beta".data⟩)]
      ⟨by decide, by decide, by decide, by decide, by decide, by decide,
        by decide⟩
      (by
        intro p hp
        rw [List.mem_singleton.mp hp]
        exact ⟨by decide, by decide, by decide, by decide, by decide,
          by decide, by decide⟩)
  · exact parse_tasks_line_shape_amended.2.1 "  1. Task".data "2. Real".data
      ⟨' ', rfl, Or.inl rfl⟩ (by decide)
  · exact parse_tasks_line_shape_amended.2.2.1
      ⟨['1'], '.', [' '], "Alpha".data⟩ "  2. Hidden".data
      ⟨by decide, by decide, by decide, by decide, by decide, by decide,
        by decide⟩
      ⟨' ', rfl, Or.inl rfl⟩ (by decide)
  · exact parse_tasks_line_shape_amended.2.2.2 "  1. Task"
      ⟨' ', rfl, Or.inl rfl⟩ (by decide)

end InvApp
